import Mathlib

/-!
# parrot-bot: the HTTP to IRC bridge of `parrot.go`

A shallow embedding of `src/parrot.go`.

* Go `string` and `[]byte` values are Lean `String`s (the separator byte `0x0A`
  is the character `'\n'` in UTF-8, so splitting on it is the same on bytes and
  on characters).
* The goirc client `*irc.Conn` is the record `Conn`: the nickname, the state
  tracker, the connection flag, the configuration written by `connect`, and the
  log of the operations the program performed, in program order.
* What the IRC network does is the record `Network`: which connection attempts
  succeed and which joins the server confirms.
* The channel `Bridge` is the record `Chan`, with the buffer and the queue of
  parked senders of a Go channel; the goroutine of `recv` that receives from it
  is part of the record `System`.
* `log.Printf` output is not modelled.
-/

namespace Parrot

/-! ## Constants and flags -/

/-- Seconds between two connection attempts (`parrot.go`, line 21). -/
def CONN_RETRY_DELAY : Nat := 3

/-- Go `http.StatusNotFound`. -/
def StatusNotFound : Nat := 404

/-- Go `http.StatusServiceUnavailable`. -/
def StatusServiceUnavailable : Nat := 503

/-- Go `http.StatusOK`, the status of a response whose handler never calls
`WriteHeader`. -/
def StatusOK : Nat := 200

/-- Command line flags of `parrot.go` (lines 23-31) that the bridge reads. -/
structure Flags where
  nick : String
  nickPassword : String
  ircAddress : String
  ircSSL : Bool
  defaultChannel : String
  httpAddress : String

/-- Flag defaults of lines 24-30. -/
def defaultFlags : Flags :=
  { nick := "parrot", nickPassword := "", ircAddress := "irc.freenode.net",
    ircSSL := false, defaultChannel := "parrot", httpAddress := ":5555" }

/-! ## The goirc client -/

/-- Operations the program performs on the outside world, in program order. -/
inductive Effect where
  | Join (channel : String)
  | Privmsg (target : String) (message : String)
  | Connect (server : String) (ssl : Bool)
  | Sleep (seconds : Nat)
  deriving DecidableEq, Repr

/-- What the IRC network does: `accepts i` tells whether the `i`-th call of
`Connect` (counted from 0) succeeds, `confirmsJoin c` whether the server has
confirmed a join of channel `c` to the state tracker by the time the client is
used next. -/
structure Network where
  accepts : Nat → Bool
  confirmsJoin : String → Bool

/-- State of the goirc connection `*irc.Conn`. `tracker` holds the pairs
(channel, nick) the state tracker knows of. -/
structure Conn where
  Nick : String
  tracker : List (String × String)
  connected : Bool
  Server : String
  SSL : Bool
  attempts : Nat
  log : List Effect

/-- Method `conn.Connected()`. -/
def Conn.Connected (c : Conn) : Bool := c.connected

/-- Method `conn.StateTracker().IsOn(channel, nick)`. -/
def Conn.IsOn (c : Conn) (channel nick : String) : Bool :=
  decide ((channel, nick) ∈ c.tracker)

/-- Method `conn.Me().ChannelsStr()`: the channels our own nick is on. -/
def Conn.ChannelsStr (c : Conn) : List String :=
  (c.tracker.filter (fun p => p.2 == c.Nick)).map Prod.fst

/-- Method `conn.Join(channel)`: the JOIN command is written to the server; the
tracker changes only when the server confirms. -/
def Conn.Join (net : Network) (c : Conn) (channel : String) : Conn :=
  { c with
    log := c.log ++ [Effect.Join channel]
    tracker :=
      if c.connected && net.confirmsJoin channel && !c.IsOn channel c.Nick then
        c.tracker ++ [(channel, c.Nick)]
      else c.tracker }

/-- Method `conn.Privmsg(target, message)`. -/
def Conn.Privmsg (c : Conn) (target message : String) : Conn :=
  { c with log := c.log ++ [Effect.Privmsg target message] }

/-! ## Go channels -/

/-- A Go channel `chan α`: its capacity, the buffered values and the values of
the senders parked in `ch <- v`, both oldest first. -/
structure Chan (α : Type) where
  cap : Nat
  buf : List α
  sendq : List α

/-- Go `make(chan α, cap)`; `make(chan α)` is `Chan.make 0`. -/
def Chan.make {α : Type} (cap : Nat) : Chan α := { cap := cap, buf := [], sendq := [] }

/-- Statement `ch <- v`: the value is buffered when the buffer has room and the
sender goes on; otherwise the value stays with the sender in `sendq` until a
receive takes it. A goroutine that is already blocked in the receive takes it at
once (`System.step`). -/
def Chan.send {α : Type} (ch : Chan α) (v : α) : Chan α :=
  if ch.buf.length < ch.cap then { ch with buf := ch.buf ++ [v] }
  else { ch with sendq := ch.sendq ++ [v] }

/-- Expression `<-ch`: the oldest buffered value (the oldest parked sender then
moves its value into the buffer and goes on), or with an empty buffer the value
of the oldest parked sender, who goes on; `none` when the receiver has to
wait. -/
def Chan.recv {α : Type} (ch : Chan α) : Option (α × Chan α) :=
  match ch.buf, ch.sendq with
  | v :: buf, s :: sendq => some (v, { ch with buf := buf ++ [s], sendq := sendq })
  | v :: buf, [] => some (v, { ch with buf := buf })
  | [], s :: sendq => some (s, { ch with sendq := sendq })
  | [], [] => none

/-- Values handed to the channel and not yet received, in the order in which
they will be received. -/
def Chan.pending {α : Type} (ch : Chan α) : List α := ch.buf ++ ch.sendq

/-! ## The bridge -/

/-- Go `type ChannelMessage struct` (lines 34-37). -/
structure ChannelMessage where
  Channel : String
  Message : String
  deriving DecidableEq, Repr

/-- Go `type IRCBridge struct` (lines 39-43). -/
structure IRCBridge where
  Client : Conn
  Bridge : Chan ChannelMessage
  IrcAddress : String

/-- Method `IRCBridge.Channels` (lines 45-47). -/
def IRCBridge.Channels (irc : IRCBridge) : List String := irc.Client.ChannelsStr

/-- Go `bytes.Split(s, []byte("\n"))` on the characters of `s`: the pieces
between the separators, one more piece than there are separators. -/
def splitNewline : List Char → List (List Char)
  | [] => [[]]
  | c :: cs =>
    if c = '\n' then [] :: splitNewline cs
    else
      match splitNewline cs with
      | [] => [[c]]
      | l :: ls => (c :: l) :: ls

/-- Go `bytes.Split(msg, []byte("\n"))`. -/
def bytesSplit (msg : String) : List String := (splitNewline msg.data).map String.mk

/-- Method `IRCBridge.Emit` (lines 61-68). -/
def IRCBridge.Emit (net : Network) (irc : IRCBridge) (channel message : String) : IRCBridge :=
  let irc :=
    if !irc.Client.IsOn channel irc.Client.Nick then
      { irc with Client := irc.Client.Join net channel }
    else irc
  { irc with Client := irc.Client.Privmsg channel message }

/-- Body of the loop of `IRCBridge.recv` for one received message
(lines 53-57). -/
def IRCBridge.deliver (net : Network) (irc : IRCBridge) (msg : ChannelMessage) : IRCBridge :=
  let channel := "#" ++ msg.Channel
  (bytesSplit msg.Message).foldl (fun irc line => irc.Emit net channel line) irc

/-- Method `IRCBridge.recv` (lines 50-59), run for at most `fuel` iterations of
its endless loop; it stops early where `<-irc.Bridge` has to wait for a
producer. -/
def IRCBridge.recv (net : Network) : Nat → IRCBridge → IRCBridge
  | 0, irc => irc
  | fuel + 1, irc =>
    match irc.Bridge.recv with
    | none => irc
    | some (msg, ch) => IRCBridge.recv net fuel (({ irc with Bridge := ch }).deliver net msg)

/-! ## HTTP ingress -/

/-- Go `unicode.IsSpace`: the white space characters of Unicode. -/
def isSpace (c : Char) : Bool :=
  c = '\t' || c = '\n' || c.toNat = 0x0B || c.toNat = 0x0C || c = '\r' || c = ' ' ||
  c.toNat = 0x85 || c.toNat = 0xA0 || c.toNat = 0x1680 ||
  (0x2000 ≤ c.toNat && c.toNat ≤ 0x200A) || c.toNat = 0x2028 || c.toNat = 0x2029 ||
  c.toNat = 0x202F || c.toNat = 0x205F || c.toNat = 0x3000

/-- Go `strings.TrimSpace`: leading and trailing white space removed. -/
def TrimSpace (s : String) : String :=
  String.mk ((s.data.dropWhile isSpace).reverse.dropWhile isSpace).reverse

/-- The parts of `*http.Request` that `ReceiveHTTPMessage` reads: the method,
`r.Header.Get("Content-Type")`, `r.FormValue("msg")`, the outcome of
`ioutil.ReadAll(r.Body)` and the remote address. -/
structure Request where
  Method : String
  ContentType : String
  FormMsg : String
  Body : Except String String
  RemoteAddr : String

/-- The `http.ResponseWriter`: status code (200 until `WriteHeader` is called),
headers and body written. -/
structure ResponseWriter where
  status : Nat
  header : List (String × String)
  body : String
  deriving DecidableEq, Repr

/-- A response writer nothing was written to yet. -/
def ResponseWriter.fresh : ResponseWriter := { status := StatusOK, header := [], body := "" }

/-- Method `w.WriteHeader(code)`. -/
def ResponseWriter.WriteHeader (w : ResponseWriter) (code : Nat) : ResponseWriter :=
  { w with status := code }

/-- Method `w.Header().Set(key, value)`. -/
def ResponseWriter.Set (w : ResponseWriter) (key value : String) : ResponseWriter :=
  { w with header := (key, value) :: w.header.filter (fun kv => kv.1 != key) }

/-- Method `w.Header().Get(key)`. -/
def ResponseWriter.Get (w : ResponseWriter) (key : String) : Option String :=
  (w.header.find? (fun kv => kv.1 == key)).map Prod.snd

/-- Go `fmt.Fprintf(w, ...)` with the formatted text. -/
def ResponseWriter.Fprintf (w : ResponseWriter) (text : String) : ResponseWriter :=
  { w with body := w.body ++ text }

/-- Lines 71-90 of `ReceiveHTTPMessage`: the payload read from the request, or
`none` with the response already written when the handler returns early. -/
def readMessage (w : ResponseWriter) (r : Request) : Option String × ResponseWriter :=
  let ct := r.ContentType
  if ct = "application/x-www-form-urlencoded" ∨ ct = "multipart/form-data" then
    let msg := TrimSpace r.FormMsg
    if msg.length = 0 then (none, w) else (some msg, w)
  else
    match r.Body with
    | Except.error err => (none, w.Fprintf ("POST error in body reading: " ++ err))
    | Except.ok msg => (some msg, w)

/-- Method `IRCBridge.ReceiveHTTPMessage` (lines 70-108). -/
def IRCBridge.ReceiveHTTPMessage (irc : IRCBridge) (w : ResponseWriter) (r : Request)
    (channel : String) : IRCBridge × ResponseWriter :=
  if r.Method ≠ "POST" then (irc, w.WriteHeader StatusNotFound)
  else
    match readMessage w r with
    | (none, w) => (irc, w)
    | (some msg, w) =>
      if !irc.Client.Connected then
        (irc, (w.Set "Retry-After" (toString (CONN_RETRY_DELAY * 2))).WriteHeader
          StatusServiceUnavailable)
      else
        ({ irc with Bridge := irc.Bridge.send { Channel := channel, Message := msg } }, w)

/-! ## Connection life cycle -/

/-- Handler of the `connected` event registered in `main` (lines 163-170). -/
def connectedHandler (flags : Flags) (net : Network) (conn : Conn) : Conn :=
  let conn := conn.Join net ("#" ++ flags.defaultChannel)
  if flags.nickPassword.length > 0 then
    conn.Privmsg "NickServ" ("IDENTIFY " ++ flags.nickPassword)
  else conn

/-- Method `conn.Connect()` of goirc: one attempt to reach `Config().Server`.
On success the session is up and the client delivers one `connected` event to
the registered handler; on failure it returns an error. -/
def Conn.Connect (net : Network) (onConnected : Conn → Conn) (c : Conn) : Conn × Option String :=
  let c' := { c with log := c.log ++ [Effect.Connect c.Server c.SSL], attempts := c.attempts + 1 }
  if net.accepts c.attempts then (onConnected { c' with connected := true }, none)
  else (c', some "connection failed")

/-- Method `IRCBridge.connect` (lines 117-129). -/
def IRCBridge.connect (flags : Flags) (net : Network) (irc : IRCBridge) :
    IRCBridge × Option String :=
  let client := { irc.Client with Server := irc.IrcAddress }
  let client := if flags.ircSSL then { client with SSL := true } else client
  let (client, err) := client.Connect net (connectedHandler flags net)
  ({ irc with Client := client }, err)

/-- Go `time.Sleep(CONN_RETRY_DELAY * time.Second)`, recorded in the log. -/
def IRCBridge.Sleep (irc : IRCBridge) (seconds : Nat) : IRCBridge :=
  { irc with Client := { irc.Client with log := irc.Client.log ++ [Effect.Sleep seconds] } }

/-- The loop of `connectRetry` (lines 111-114) entered with the outcome of the
last attempt; `none` when `fuel` iterations did not end it. -/
def IRCBridge.connectRetryLoop (flags : Flags) (net : Network) :
    Nat → IRCBridge × Option String → Option IRCBridge
  | _, (irc, none) => some irc
  | 0, (_, some _) => none
  | fuel + 1, (irc, some _) =>
    IRCBridge.connectRetryLoop flags net fuel ((irc.Sleep CONN_RETRY_DELAY).connect flags net)

/-- Method `IRCBridge.connectRetry` (lines 110-115) with at most `fuel`
retries. -/
def IRCBridge.connectRetry (flags : Flags) (net : Network) (fuel : Nat) (irc : IRCBridge) :
    Option IRCBridge :=
  IRCBridge.connectRetryLoop flags net fuel (irc.connect flags net)

/-- Handler of the `disconnected` event registered in `main` (lines 171-176);
the goroutine it starts is run to its end. -/
def disconnectedHandler (flags : Flags) (net : Network) (fuel : Nat) (parrot : IRCBridge) :
    Option IRCBridge :=
  let parrot := { parrot with Client := parrot.Client.Join net ("#" ++ flags.defaultChannel) }
  parrot.connectRetry flags net fuel

/-! ## Regular expressions (Go package `regexp`)

The fragment of the RE2 syntax that the address pattern of the PRIVMSG handler
is written in: literal characters, escaped punctuation, groups `(...)`,
`(?:...)` and `(?i:...)`, and alternation. A pattern outside this fragment is
reported as an error; `Compile_addressPattern` shows that the pattern of the
handler is always inside. -/

/-- Syntax tree of a compiled pattern. A literal read under the flag `i`
matches every character of its case folding orbit. -/
inductive Regexp where
  | emptyMatch
  | literal (foldCase : Bool) (c : Char)
  | concat (a b : Regexp)
  | alternate (a b : Regexp)
  deriving DecidableEq, Repr

/-- Characters that Go `regexp.QuoteMeta` escapes. -/
def special (c : Char) : Bool :=
  decide (c ∈ ['\\', '.', '+', '*', '?', '(', ')', '|', '[', ']', '{', '}', '^', '$'])

/-- Go `regexp.QuoteMeta` on the characters of the text: a backslash before
every special character. -/
def quoteMeta (l : List Char) : List Char :=
  l.flatMap (fun c => if special c then ['\\', c] else [c])

/-- Go `regexp.QuoteMeta`. -/
def QuoteMeta (s : String) : String := String.mk (quoteMeta s.data)

/-- ASCII punctuation: after a backslash such a character stands for itself. -/
def isPunct (c : Char) : Bool :=
  decide (c.toNat < 128) && !c.isAlphanum

/-- A group being read by the parser: the flag `i` in force inside it, the
alternatives closed by a `|` so far, and the concatenation being read. -/
structure Frame where
  foldCase : Bool
  alts : Option Regexp
  cur : Regexp
  deriving DecidableEq, Repr

/-- A literal character appended to the concatenation being read. -/
def Frame.literal (f : Frame) (c : Char) : Frame :=
  { f with cur := Regexp.concat f.cur (Regexp.literal f.foldCase c) }

/-- The expression the group stands for once it ends. -/
def Frame.close (f : Frame) : Regexp :=
  match f.alts with
  | none => f.cur
  | some a => Regexp.alternate a f.cur

/-- A `|` was read: the concatenation becomes one more alternative. -/
def Frame.bar (f : Frame) : Frame :=
  { f with alts := some f.close, cur := Regexp.emptyMatch }

/-- What the parser expects next: anything, the character after a backslash,
the character after `(`, or the flags after `(?`. -/
inductive Mode where
  | normal
  | escape
  | groupOpen
  | groupFlags (i : Bool)
  deriving DecidableEq, Repr

/-- State of the parser: the innermost group and the groups around it. -/
structure Parser where
  mode : Mode
  top : Frame
  stack : List Frame
  deriving DecidableEq, Repr

/-- One character read in normal mode. -/
def Parser.stepNormal (p : Parser) (c : Char) : Option Parser :=
  if c = '\\' then some { p with mode := Mode.escape }
  else if c = '(' then some { p with mode := Mode.groupOpen }
  else if c = ')' then
    match p.stack with
    | [] => none
    | parent :: rest =>
      some { p with top := { parent with cur := Regexp.concat parent.cur p.top.close },
                    stack := rest }
  else if c = '|' then some { p with top := p.top.bar }
  else if special c then none
  else some { p with top := p.top.literal c }

/-- One character read. -/
def Parser.step (p : Parser) (c : Char) : Option Parser :=
  match p.mode with
  | Mode.normal => p.stepNormal c
  | Mode.escape =>
    if isPunct c then some { p with mode := Mode.normal, top := p.top.literal c } else none
  | Mode.groupOpen =>
    if c = '?' then some { p with mode := Mode.groupFlags false }
    else
      Parser.stepNormal
        { mode := Mode.normal,
          top := { foldCase := p.top.foldCase, alts := none, cur := Regexp.emptyMatch },
          stack := p.top :: p.stack } c
  | Mode.groupFlags i =>
    if c = 'i' then some { p with mode := Mode.groupFlags true }
    else if c = ':' then
      some { mode := Mode.normal,
             top := { foldCase := p.top.foldCase || i, alts := none, cur := Regexp.emptyMatch },
             stack := p.top :: p.stack }
    else none

/-- The parser before the first character. -/
def Parser.init : Parser :=
  { mode := Mode.normal,
    top := { foldCase := false, alts := none, cur := Regexp.emptyMatch },
    stack := [] }

/-- Go `regexp.Compile`: the syntax tree, or `none` for an error. -/
def Compile (pattern : String) : Option Regexp :=
  match pattern.data.foldlM Parser.step Parser.init with
  | none => none
  | some p => if p.mode = Mode.normal ∧ p.stack = [] then some p.top.close else none

/-- The ways in which the expression matches a prefix of the text: the list of
what is left of the text after each. `fold` maps a character to the
representative of its case folding orbit (Go `unicode.SimpleFold`). -/
def Regexp.matchPrefix (fold : Char → Char) : Regexp → List Char → List (List Char)
  | Regexp.emptyMatch, s => [s]
  | Regexp.literal foldCase c, s =>
    match s with
    | [] => []
    | d :: rest =>
      if (if foldCase then decide (fold d = fold c) else decide (d = c)) then [rest] else []
  | Regexp.concat a b, s => (a.matchPrefix fold s).flatMap (b.matchPrefix fold)
  | Regexp.alternate a b, s => a.matchPrefix fold s ++ b.matchPrefix fold s

/-- Method `(*Regexp).MatchString`: whether the text contains a match. -/
def Regexp.MatchString (fold : Char → Char) (re : Regexp) (s : String) : Bool :=
  s.data.tails.any (fun t => !(re.matchPrefix fold t).isEmpty)

/-- Case folding of the letters of ASCII: `unicode.SimpleFold` restricted to
texts and patterns in ASCII. -/
def foldASCII (c : Char) : Char := c.toLower

/-! ## The PRIVMSG handler -/

/-- Go `*irc.Line`: the nick of the sender and the arguments of the command. -/
structure Line where
  Nick : String
  Args : List String

/-- The pattern text of line 188, `fmt.Sprintf("(?i:%s|%s|parrot)(?::|,)", a, b)`. -/
def addressPatternText (a b : String) : String :=
  "(?i:" ++ a ++ "|" ++ b ++ "|parrot)(?::|,)"

/-- Go `fmt.Sprintf("I'm not very smart, see %s", url)` (line 187). -/
def standardDisclaimer (url : String) : String := "I'm not very smart, see " ++ url

/-- Handler of `PRIVMSG` registered in `main` (lines 183-202). `none` is the
run time panic of `line.Args[0]` or `line.Args[1]` on a line with fewer than two
arguments. -/
def privmsgHandler (fold : Char → Char) (flags : Flags) (url : String) (conn : Conn)
    (line : Line) : Option Conn :=
  match line.Args with
  | channel :: message :: _ =>
    match Compile (addressPatternText (QuoteMeta flags.nick) (QuoteMeta conn.Nick)) with
    | none => some conn
    | some r =>
      if channel = conn.Nick then
        some (conn.Privmsg line.Nick (standardDisclaimer url))
      else if r.MatchString fold message then
        some (conn.Privmsg channel (standardDisclaimer url))
      else some conn
  | _ => none



/-! ## Specification side definitions -/

/-- The sends recorded in a log: (target, text) of every `Privmsg`, in order. -/
def sends : List Effect → List (String × String)
  | [] => []
  | Effect.Privmsg target message :: es => (target, message) :: sends es
  | _ :: es => sends es

/-- The channels of the joins recorded in a log, in order. -/
def joins : List Effect → List String
  | [] => []
  | Effect.Join channel :: es => channel :: joins es
  | _ :: es => joins es

/-- Number of line separators in a payload. -/
def countNewlines (P : String) : Nat := P.data.count '\n'

/-- Effects of the `connected` handler, as `main` registers it: the join of the
default channel, then the identification when a password is configured. -/
def connectedEffects (flags : Flags) : List Effect :=
  Effect.Join ("#" ++ flags.defaultChannel) ::
    (if flags.nickPassword.length > 0 then
      [Effect.Privmsg "NickServ" ("IDENTIFY " ++ flags.nickPassword)]
    else [])

/-- Effects of a connection that succeeds at attempt `N + 1`: the first
attempt, then `N` times a sleep of `CONN_RETRY_DELAY` seconds and an attempt. -/
def retryTrace (server : String) (ssl : Bool) (N : Nat) : List Effect :=
  Effect.Connect server ssl ::
    (List.replicate N [Effect.Sleep CONN_RETRY_DELAY, Effect.Connect server ssl]).flatten

/-- Number of connection attempts recorded in a log. -/
def connects : List Effect → Nat
  | [] => 0
  | Effect.Connect _ _ :: es => connects es + 1
  | _ :: es => connects es

/-- The sleeps recorded in a log, in seconds. -/
def sleeps : List Effect → List Nat
  | [] => []
  | Effect.Sleep n :: es => n :: sleeps es
  | _ :: es => sleeps es

/-! ## The goroutines around the queue -/

/-- The bridge together with the goroutine of `recv` that `main` starts
(line 240). `consumer` is `none` while that goroutine is blocked in the receive
of line 52, and `some msg` while it delivers `msg` (lines 53-57). The handlers
blocked in the send of line 107 are those whose message is in
`parrot.Bridge.sendq`. -/
structure System where
  parrot : IRCBridge
  consumer : Option ChannelMessage

/-- Lines 158 and 240 of `main`: the bridge is made around the client with the
queue `make(chan ChannelMessage)`, and `recv` is started and blocks in its
first receive. -/
def System.start (c : Conn) (ircAddress : String) : System :=
  { parrot := { Client := c, Bridge := Chan.make 0, IrcAddress := ircAddress },
    consumer := none }

/-- The goroutine of `recv` at line 52: it takes the next message and goes on
to deliver it, or blocks when there is none. -/
def System.receive (irc : IRCBridge) : System :=
  match irc.Bridge.recv with
  | some (msg, ch) => { parrot := { irc with Bridge := ch }, consumer := some msg }
  | none => { parrot := irc, consumer := none }

/-- What happens next: an HTTP handler runs `ReceiveHTTPMessage` on a request,
or the goroutine of `recv` ends the delivery it is busy with and comes back to
line 52. -/
inductive Event where
  | request (w : ResponseWriter) (r : Request) (channel : String)
  | delivered

/-- One event. A handler runs `ReceiveHTTPMessage`; when the goroutine of `recv`
is blocked in its receive it takes the message sent at once, so that send does
not wait; when it is busy the message stays with the blocked sender. At the end
of a delivery the goroutine of `recv` is back at its receive. -/
def System.step (net : Network) (s : System) : Event → System
  | Event.request w r channel =>
    match s.consumer with
    | none => System.receive (s.parrot.ReceiveHTTPMessage w r channel).1
    | some msg => { parrot := (s.parrot.ReceiveHTTPMessage w r channel).1, consumer := some msg }
  | Event.delivered =>
    match s.consumer with
    | none => s
    | some msg => System.receive (s.parrot.deliver net msg)

/-- The system after a sequence of events. -/
def System.run (net : Network) (s : System) (events : List Event) : System :=
  events.foldl (System.step net) s

/-- The state is one that `main` can be in: some events after the start. -/
def System.Reachable (net : Network) (s : System) : Prop :=
  ∃ (c : Conn) (ircAddress : String) (events : List Event),
    s = System.run net (System.start c ircAddress) events

/-- The text is addressed to one of the names: it contains, compared through
`fold`, one of them immediately followed by a colon or a comma. -/
def Addressed (fold : Char → Char) (names : List String) (text : String) : Prop :=
  ∃ name ∈ names, ∃ d ∈ [':', ','], ∃ pre w post : List Char,
    text.data = pre ++ w ++ d :: post ∧ w.map fold = name.data.map fold

/-! ## Example states -/

/-- A network on which every attempt and every join succeeds. -/
def goodNetwork : Network := { accepts := fun _ => true, confirmsJoin := fun _ => true }

/-- A network on which the attempts 0, 1 and 2 fail and later ones succeed, and
no join is confirmed. -/
def flakyNetwork : Network := { accepts := fun i => decide (3 ≤ i), confirmsJoin := fun _ => false }

/-- The client of `main` once connected as `parrot` and on `#news`. -/
def connUp : Conn :=
  { Nick := "parrot", tracker := [("#news", "parrot")], connected := true,
    Server := "irc.freenode.net", SSL := false, attempts := 1, log := [] }

/-- The client of `main` after the connection was lost. -/
def connDown : Conn :=
  { Nick := "parrot", tracker := [], connected := false,
    Server := "irc.freenode.net", SSL := false, attempts := 0, log := [] }

/-- The bridge of `main` (line 158) around a client, the queue made by
`make(chan ChannelMessage)`. -/
def mainBridge (c : Conn) : IRCBridge :=
  { Client := c, Bridge := Chan.make 0, IrcAddress := "irc.freenode.net" }

/-- A POST request with a raw body. -/
def rawPost (body : String) : Request :=
  { Method := "POST", ContentType := "text/plain", FormMsg := "", Body := Except.ok body,
    RemoteAddr := "127.0.0.1:4000" }

/-- A POST request of a form with the field `msg`. -/
def formPost (msg : String) : Request :=
  { Method := "POST", ContentType := "application/x-www-form-urlencoded", FormMsg := msg,
    Body := Except.ok "", RemoteAddr := "127.0.0.1:4000" }

/-- A GET request. -/
def getRequest : Request :=
  { Method := "GET", ContentType := "", FormMsg := "", Body := Except.ok "",
    RemoteAddr := "127.0.0.1:4000" }

/-- The content type makes `ReceiveHTTPMessage` read the form field `msg`
(line 77). -/
def Request.isForm (r : Request) : Prop :=
  r.ContentType = "application/x-www-form-urlencoded" ∨ r.ContentType = "multipart/form-data"

instance (r : Request) : Decidable r.isForm := by
  unfold Request.isForm
  exact inferInstance

/-- The request is a POST that carries the payload `P` past lines 72-90 of
`ReceiveHTTPMessage`: the form field `msg`, trimmed and not empty, or the raw
body that was read without error. -/
def Request.Carries (r : Request) (P : String) : Prop :=
  r.Method = "POST" ∧
    ((r.isForm ∧ TrimSpace r.FormMsg = P ∧ P.length ≠ 0) ∨ (¬ r.isForm ∧ r.Body = Except.ok P))

/-- The expression `r` followed by the characters of `l` as literals, the way
the parser appends them one by one. -/
def literals (foldCase : Bool) (r : Regexp) (l : List Char) : Regexp :=
  l.foldl (fun r c => Regexp.concat r (Regexp.literal foldCase c)) r

/-- The syntax tree of the pattern `(?i:a|b|parrot)(?::|,)` in which `a` and `b`
are read as literal texts. -/
def addressPattern (a b : String) : Regexp :=
  Regexp.concat
    (Regexp.concat Regexp.emptyMatch
      (Regexp.alternate
        (Regexp.alternate (literals true Regexp.emptyMatch a.data)
          (literals true Regexp.emptyMatch b.data))
        (literals true Regexp.emptyMatch "parrot".data)))
    (Regexp.alternate
      (Regexp.concat Regexp.emptyMatch (Regexp.literal false ':'))
      (Regexp.concat Regexp.emptyMatch (Regexp.literal false ',')))

/-! ## Lemmas: splitting into lines -/

theorem splitNewline_ne_nil (l : List Char) : splitNewline l ≠ [] := by
  induction l with
  | nil => simp [splitNewline]
  | cons c cs ih =>
    unfold splitNewline
    split
    · simp
    · split <;> simp

theorem splitNewline_length (l : List Char) : (splitNewline l).length = l.count '\n' + 1 := by
  induction l with
  | nil => simp [splitNewline]
  | cons c cs ih =>
    unfold splitNewline
    by_cases hc : c = '\n'
    · subst hc
      simp [ih]
    · have hc' : (c == '\n') = false := by simpa using hc
      rw [if_neg hc, List.count_cons, hc']
      cases hs : splitNewline cs with
      | nil => exact absurd hs (splitNewline_ne_nil cs)
      | cons l ls =>
        rw [hs] at ih
        simpa using ih

theorem splitNewline_intercalate (l : List Char) :
    List.intercalate ['\n'] (splitNewline l) = l := by
  induction l with
  | nil => simp [splitNewline, List.intercalate]
  | cons c cs ih =>
    unfold splitNewline
    by_cases hc : c = '\n'
    · subst hc
      rw [if_pos rfl]
      cases hs : splitNewline cs with
      | nil => exact absurd hs (splitNewline_ne_nil cs)
      | cons l ls =>
        rw [hs] at ih
        simp only [List.intercalate] at ih ⊢
        simp only [List.intersperse, List.flatten_cons, List.nil_append, List.singleton_append]
        rw [ih]
    · rw [if_neg hc]
      cases hs : splitNewline cs with
      | nil => exact absurd hs (splitNewline_ne_nil cs)
      | cons l ls =>
        rw [hs] at ih
        simp only [List.intercalate] at ih ⊢
        cases ls with
        | nil => simpa using ih
        | cons l2 ls2 => simpa using ih

theorem splitNewline_no_newline (l : List Char) : ∀ x ∈ splitNewline l, '\n' ∉ x := by
  induction l with
  | nil => simp [splitNewline]
  | cons c cs ih =>
    unfold splitNewline
    by_cases hc : c = '\n'
    · rw [if_pos hc]
      intro x hx
      rcases List.mem_cons.1 hx with rfl | hx
      · simp
      · exact ih x hx
    · rw [if_neg hc]
      cases hs : splitNewline cs with
      | nil => exact absurd hs (splitNewline_ne_nil cs)
      | cons l ls =>
        rw [hs] at ih
        intro x hx
        rcases List.mem_cons.1 hx with rfl | hx
        · intro hmem
          rcases List.mem_cons.1 hmem with h | h
          · exact hc h.symm
          · exact ih l (List.mem_cons_self _ _) h
        · exact ih x (List.mem_cons_of_mem _ hx)


theorem intercalate_go_data (acc s : String) (l : List String) :
    (String.intercalate.go acc s l).data
      = acc.data ++ (l.map (fun a => s.data ++ a.data)).flatten := by
  induction l generalizing acc with
  | nil => simp [String.intercalate.go]
  | cons a as ih =>
    simp [String.intercalate.go, ih, String.data_append, List.append_assoc]

theorem intersperse_flatten_cons (sep a : List Char) (l : List (List Char)) :
    ((a :: l).intersperse sep).flatten = a ++ (l.map (fun x => sep ++ x)).flatten := by
  induction l generalizing a with
  | nil => simp
  | cons b bs ih =>
    rw [List.intersperse_cons_cons, List.flatten_cons, List.flatten_cons, ih]
    simp [List.append_assoc]

theorem intercalate_data (s : String) (l : List String) :
    (String.intercalate s l).data = List.intercalate s.data (l.map String.data) := by
  cases l with
  | nil => simp [String.intercalate, List.intercalate]
  | cons a as =>
    simp only [String.intercalate, intercalate_go_data, List.intercalate, List.map_cons,
      intersperse_flatten_cons, List.map_map]
    rfl

theorem bytesSplit_length (P : String) : (bytesSplit P).length = countNewlines P + 1 := by
  simp [bytesSplit, countNewlines, splitNewline_length]

theorem bytesSplit_join (P : String) : String.intercalate "\n" (bytesSplit P) = P := by
  apply String.ext
  rw [intercalate_data]
  have h : (bytesSplit P).map String.data = splitNewline P.data := by
    simp [bytesSplit, List.map_map, Function.comp_def]
  rw [h]
  exact splitNewline_intercalate P.data

theorem bytesSplit_no_newline (P : String) : ∀ l ∈ bytesSplit P, '\n' ∉ l.data := by
  intro l hl
  simp only [bytesSplit, List.mem_map] at hl
  obtain ⟨x, hx, rfl⟩ := hl
  exact splitNewline_no_newline P.data x hx

theorem bytesSplit_ne_nil (P : String) : bytesSplit P ≠ [] := by
  simp [bytesSplit, splitNewline_ne_nil]

/-! ## Lemmas: the consumer loop -/

theorem sends_append (a b : List Effect) : sends (a ++ b) = sends a ++ sends b := by
  induction a with
  | nil => rfl
  | cons e es ih => cases e <;> simp [sends, ih]

theorem joins_append (a b : List Effect) : joins (a ++ b) = joins a ++ joins b := by
  induction a with
  | nil => rfl
  | cons e es ih => cases e <;> simp [joins, ih]

theorem Emit_log (net : Network) (irc : IRCBridge) (channel message : String) :
    (irc.Emit net channel message).Client.log
      = irc.Client.log
          ++ (if irc.Client.IsOn channel irc.Client.Nick then [] else [Effect.Join channel])
          ++ [Effect.Privmsg channel message] := by
  unfold IRCBridge.Emit
  cases h : irc.Client.IsOn channel irc.Client.Nick <;> simp [Conn.Privmsg, Conn.Join]

theorem Emit_Nick (net : Network) (irc : IRCBridge) (channel message : String) :
    (irc.Emit net channel message).Client.Nick = irc.Client.Nick := by
  unfold IRCBridge.Emit
  cases h : irc.Client.IsOn channel irc.Client.Nick <;> simp [Conn.Privmsg, Conn.Join]

theorem Emit_Bridge (net : Network) (irc : IRCBridge) (channel message : String) :
    (irc.Emit net channel message).Bridge = irc.Bridge := by
  unfold IRCBridge.Emit
  cases h : irc.Client.IsOn channel irc.Client.Nick <;> simp

theorem Emit_IsOn (net : Network) (irc : IRCBridge) (channel message c n : String)
    (h : irc.Client.IsOn c n = true) : (irc.Emit net channel message).Client.IsOn c n = true := by
  unfold IRCBridge.Emit
  cases h1 : irc.Client.IsOn channel irc.Client.Nick
  · simp only [Bool.not_false, if_true, Conn.Privmsg, Conn.Join, Conn.IsOn] at h ⊢
    split
    · simp only [decide_eq_true_eq] at h ⊢
      exact List.mem_append_left _ h
    · exact h
  · simpa [Conn.Privmsg] using h

/-- The lines of one message emitted one after the other (the inner loop of
`recv`). -/
theorem emitAll_member (net : Network) (channel : String) (lines : List String) :
    ∀ irc : IRCBridge, irc.Client.IsOn channel irc.Client.Nick = true →
      (lines.foldl (fun irc line => irc.Emit net channel line) irc).Client.log
        = irc.Client.log ++ lines.map (Effect.Privmsg channel) := by
  induction lines with
  | nil => intro irc _; simp
  | cons l ls ih =>
    intro irc h
    have h' : (irc.Emit net channel l).Client.IsOn channel (irc.Emit net channel l).Client.Nick
        = true := by
      rw [Emit_Nick]; exact Emit_IsOn net irc channel l channel _ h
    rw [List.foldl_cons, ih _ h', Emit_log, h]
    simp

theorem emitAll_log (net : Network) (channel : String) (lines : List String) :
    ∀ irc : IRCBridge, ∃ E,
      (lines.foldl (fun irc line => irc.Emit net channel line) irc).Client.log
        = irc.Client.log ++ E
      ∧ sends E = lines.map (fun l => (channel, l))
      ∧ ∀ c ∈ joins E, c = channel := by
  induction lines with
  | nil => intro irc; exact ⟨[], by simp, rfl, by simp [joins]⟩
  | cons l ls ih =>
    intro irc
    obtain ⟨E, hE, hs, hj⟩ := ih (irc.Emit net channel l)
    refine ⟨(if irc.Client.IsOn channel irc.Client.Nick then [] else [Effect.Join channel])
        ++ [Effect.Privmsg channel l] ++ E, ?_, ?_, ?_⟩
    · rw [List.foldl_cons, hE, Emit_log]; simp [List.append_assoc]
    · cases h : irc.Client.IsOn channel irc.Client.Nick <;> simp [sends_append, sends, hs]
    · intro c hc
      cases h : irc.Client.IsOn channel irc.Client.Nick
      · simp [h, joins_append, joins] at hc
        rcases hc with rfl | hc
        · rfl
        · exact hj c hc
      · simp [h, joins_append, joins] at hc
        exact hj c hc

theorem emitAll_first (net : Network) (channel l : String) (ls : List String) (irc : IRCBridge)
    (h : irc.Client.IsOn channel irc.Client.Nick = false) :
    ∃ rest, ((l :: ls).foldl (fun irc line => irc.Emit net channel line) irc).Client.log
        = irc.Client.log ++ Effect.Join channel :: Effect.Privmsg channel l :: rest := by
  obtain ⟨E, hE, _, _⟩ := emitAll_log net channel ls (irc.Emit net channel l)
  refine ⟨E, ?_⟩
  rw [List.foldl_cons, hE, Emit_log, h]
  simp

theorem recv_one (net : Network) (irc : IRCBridge) (msg : ChannelMessage)
    (ch : Chan ChannelMessage) (h : irc.Bridge.recv = some (msg, ch)) :
    IRCBridge.recv net 1 irc = ({ irc with Bridge := ch }).deliver net msg := by
  simp [IRCBridge.recv, h]


theorem deliver_log (net : Network) (irc : IRCBridge) (t P : String) :
    ∃ E, (irc.deliver net { Channel := t, Message := P }).Client.log = irc.Client.log ++ E
      ∧ sends E = (bytesSplit P).map (fun l => ("#" ++ t, l))
      ∧ ∀ c ∈ joins E, c = "#" ++ t := by
  unfold IRCBridge.deliver
  exact emitAll_log net ("#" ++ t) (bytesSplit P) irc

/-! ## The consumer loop: one send per line, join before send -/

/-- C1: when the next message on the Bridge is (t, P), one iteration of the loop
of `recv` appends effects `E` to the log whose sends are exactly the lines of
`P`, all to `"#" ++ t`, in order; there are as many sends as `P` has line
separators plus one, no sent text holds a separator, and the sent texts joined
with the separator give back `P`. -/
theorem recv_sends_every_line (net : Network) (irc : IRCBridge) (t P : String)
    (ch : Chan ChannelMessage)
    (h : irc.Bridge.recv = some ({ Channel := t, Message := P }, ch)) :
    ∃ E, (IRCBridge.recv net 1 irc).Client.log = irc.Client.log ++ E
      ∧ sends E = (bytesSplit P).map (fun l => ("#" ++ t, l))
      ∧ (sends E).length = countNewlines P + 1
      ∧ (∀ s ∈ sends E, s.1 = "#" ++ t)
      ∧ (∀ s ∈ sends E, '\n' ∉ s.2.data)
      ∧ String.intercalate "\n" ((sends E).map Prod.snd) = P := by
  rw [recv_one net irc _ ch h]
  obtain ⟨E, hE, hs, _⟩ := deliver_log net { irc with Bridge := ch } t P
  refine ⟨E, hE, hs, ?_, ?_, ?_, ?_⟩
  · rw [hs, List.length_map, bytesSplit_length]
  · intro s hs'
    rw [hs, List.mem_map] at hs'
    obtain ⟨l, _, rfl⟩ := hs'
    rfl
  · intro s hs'
    rw [hs, List.mem_map] at hs'
    obtain ⟨l, hl, rfl⟩ := hs'
    exact bytesSplit_no_newline P l hl
  · rw [hs, List.map_map]
    have : (Prod.snd ∘ fun l => ("#" ++ t, l)) = (id : String → String) := rfl
    rw [this, List.map_id]
    exact bytesSplit_join P

/-- C3: when the next message on the Bridge is for target `t`: if `"#" ++ t` is
not in the channel membership, the first effect of the delivery is the join of
`"#" ++ t`, right before the send of the first line; if it is a member, the
delivery is the sends of the lines and holds no join at all. Every join of a
delivery is for its own target. -/
theorem join_before_send (net : Network) (irc : IRCBridge) (t P : String)
    (ch : Chan ChannelMessage)
    (h : irc.Bridge.recv = some ({ Channel := t, Message := P }, ch)) :
    ∃ E, (IRCBridge.recv net 1 irc).Client.log = irc.Client.log ++ E
      ∧ (irc.Client.IsOn ("#" ++ t) irc.Client.Nick = false →
          ∃ line rest, (bytesSplit P).head? = some line
            ∧ E = Effect.Join ("#" ++ t) :: Effect.Privmsg ("#" ++ t) line :: rest)
      ∧ (irc.Client.IsOn ("#" ++ t) irc.Client.Nick = true →
          joins E = [] ∧ E = (bytesSplit P).map (Effect.Privmsg ("#" ++ t)))
      ∧ ∀ c ∈ joins E, c = "#" ++ t := by
  rw [recv_one net irc _ ch h]
  obtain ⟨E, hE, _, hj⟩ := deliver_log net { irc with Bridge := ch } t P
  refine ⟨E, hE, ?_, ?_, hj⟩
  · intro hoff
    cases hl : bytesSplit P with
    | nil => exact absurd hl (bytesSplit_ne_nil P)
    | cons l ls =>
      obtain ⟨rest, hrest⟩ := emitAll_first net ("#" ++ t) l ls { irc with Bridge := ch } hoff
      refine ⟨l, rest, rfl, ?_⟩
      have hE' := hE
      unfold IRCBridge.deliver at hE'
      simp only [hl] at hE'
      rw [hrest] at hE'
      exact (List.append_cancel_left hE').symm
  · intro hon
    have hmem := emitAll_member net ("#" ++ t) (bytesSplit P) { irc with Bridge := ch } hon
    have hE' := hE
    unfold IRCBridge.deliver at hE'
    simp only at hE'
    rw [hmem] at hE'
    have hEq : E = (bytesSplit P).map (Effect.Privmsg ("#" ++ t)) :=
      (List.append_cancel_left hE').symm
    refine ⟨?_, hEq⟩
    rw [hEq]
    generalize bytesSplit P = ls
    induction ls with
    | nil => rfl
    | cons l ls ih => simpa [joins] using ih

/-- C1, witness: the bridge of `main`, connected and on `#news`, with the
message for target `news` and payload `line1`, separator, `line2` on the queue:
two sends to `#news`, `line1` then `line2`, and no join. -/
theorem recv_sends_every_line_witness :
    (({ mainBridge connUp with
          Bridge := (Chan.make 0).send { Channel := "news", Message := "line1\nline2" } }
        : IRCBridge).Bridge.recv
      = some ({ Channel := "news", Message := "line1\nline2" }, Chan.make 0))
    ∧ (∃ E, (IRCBridge.recv goodNetwork 1
          { mainBridge connUp with
            Bridge := (Chan.make 0).send { Channel := "news", Message := "line1\nline2" } }
          ).Client.log = connUp.log ++ E
        ∧ sends E = (bytesSplit "line1\nline2").map (fun l => ("#" ++ "news", l))
        ∧ (sends E).length = countNewlines "line1\nline2" + 1
        ∧ (∀ s ∈ sends E, s.1 = "#" ++ "news")
        ∧ (∀ s ∈ sends E, '\n' ∉ s.2.data)
        ∧ String.intercalate "\n" ((sends E).map Prod.snd) = "line1\nline2")
    ∧ (IRCBridge.recv goodNetwork 1
          { mainBridge connUp with
            Bridge := (Chan.make 0).send { Channel := "news", Message := "line1\nline2" } }
        ).Client.log = [Effect.Privmsg "#news" "line1", Effect.Privmsg "#news" "line2"] :=
  ⟨rfl,
   recv_sends_every_line goodNetwork
     { mainBridge connUp with
       Bridge := (Chan.make 0).send { Channel := "news", Message := "line1\nline2" } }
     "news" "line1\nline2" (Chan.make 0) rfl,
   by decide⟩

/-- C3, witness: a message of two lines for target `ops`, of which the client
is not a member: the join comes first; it is repeated before the second send
while the server has not confirmed it, and issued once when it has. -/
theorem join_before_send_witness :
    (({ mainBridge connUp with
          Bridge := (Chan.make 0).send { Channel := "ops", Message := "a\nb" } }
        : IRCBridge).Bridge.recv
      = some ({ Channel := "ops", Message := "a\nb" }, Chan.make 0))
    ∧ (∃ E, (IRCBridge.recv flakyNetwork 1
          { mainBridge connUp with
            Bridge := (Chan.make 0).send { Channel := "ops", Message := "a\nb" } }
          ).Client.log = connUp.log ++ E
        ∧ (connUp.IsOn ("#" ++ "ops") connUp.Nick = false →
            ∃ line rest, (bytesSplit "a\nb").head? = some line
              ∧ E = Effect.Join ("#" ++ "ops") :: Effect.Privmsg ("#" ++ "ops") line :: rest)
        ∧ (connUp.IsOn ("#" ++ "ops") connUp.Nick = true →
            joins E = [] ∧ E = (bytesSplit "a\nb").map (Effect.Privmsg ("#" ++ "ops")))
        ∧ ∀ c ∈ joins E, c = "#" ++ "ops")
    ∧ (IRCBridge.recv flakyNetwork 1
          { mainBridge connUp with
            Bridge := (Chan.make 0).send { Channel := "ops", Message := "a\nb" } }
        ).Client.log
        = [Effect.Join "#ops", Effect.Privmsg "#ops" "a", Effect.Join "#ops",
           Effect.Privmsg "#ops" "b"]
    ∧ (IRCBridge.recv goodNetwork 1
          { mainBridge connUp with
            Bridge := (Chan.make 0).send { Channel := "ops", Message := "a\nb" } }
        ).Client.log
        = [Effect.Join "#ops", Effect.Privmsg "#ops" "a", Effect.Privmsg "#ops" "b"] :=
  ⟨rfl,
   join_before_send flakyNetwork
     { mainBridge connUp with
       Bridge := (Chan.make 0).send { Channel := "ops", Message := "a\nb" } }
     "ops" "a\nb" (Chan.make 0) rfl,
   by decide, by decide⟩

/-! ## The HTTP ingress -/

theorem readMessage_of_carries (w : ResponseWriter) (r : Request) (P : String)
    (h : r.Carries P) : readMessage w r = (some P, w) := by
  obtain ⟨_, h | h⟩ := h
  · obtain ⟨hf, ht, hl⟩ := h
    have hf' : r.ContentType = "application/x-www-form-urlencoded"
        ∨ r.ContentType = "multipart/form-data" := hf
    simp only [readMessage, if_pos hf', ht, if_neg hl]
  · obtain ⟨hf, hb⟩ := h
    have hf' : ¬ (r.ContentType = "application/x-www-form-urlencoded"
        ∨ r.ContentType = "multipart/form-data") := hf
    simp only [readMessage, if_neg hf', hb]

theorem ReceiveHTTPMessage_down (irc : IRCBridge) (w : ResponseWriter) (r : Request)
    (channel : String) (hdown : irc.Client.Connected = false) :
    (irc.ReceiveHTTPMessage w r channel).1 = irc := by
  unfold IRCBridge.ReceiveHTTPMessage
  split
  · rfl
  · split
    · rfl
    · simp [hdown]

theorem ReceiveHTTPMessage_carries_down (irc : IRCBridge) (w : ResponseWriter) (r : Request)
    (channel P : String) (hdown : irc.Client.Connected = false) (h : r.Carries P) :
    (irc.ReceiveHTTPMessage w r channel).2
      = (w.Set "Retry-After" (toString (CONN_RETRY_DELAY * 2))).WriteHeader
          StatusServiceUnavailable := by
  unfold IRCBridge.ReceiveHTTPMessage
  rw [if_neg (by simpa using h.1), readMessage_of_carries w r P h]
  simp [hdown]

theorem ReceiveHTTPMessage_carries_up (irc : IRCBridge) (w : ResponseWriter) (r : Request)
    (channel P : String) (hup : irc.Client.Connected = true) (h : r.Carries P) :
    irc.ReceiveHTTPMessage w r channel
      = ({ irc with Bridge := irc.Bridge.send { Channel := channel, Message := P } }, w) := by
  unfold IRCBridge.ReceiveHTTPMessage
  rw [if_neg (by simpa using h.1), readMessage_of_carries w r P h]
  simp [hup]

theorem Get_Set (w : ResponseWriter) (key value : String) :
    (w.Set key value).Get key = some value := by
  simp [ResponseWriter.Set, ResponseWriter.Get]

/-- C2, counterexample: with the connection down, a POST of a form whose `msg`
is blank returns with status 200 and no `Retry-After` header, and a GET returns
404: neither result is Unavailable. -/
theorem disconnected_submit_not_always_unavailable :
    connDown.Connected = false
    ∧ ((mainBridge connDown).ReceiveHTTPMessage ResponseWriter.fresh (formPost "  ") "news").2.status
        = StatusOK
    ∧ ((mainBridge connDown).ReceiveHTTPMessage ResponseWriter.fresh (formPost "  ") "news").2.Get
        "Retry-After" = none
    ∧ ((mainBridge connDown).ReceiveHTTPMessage ResponseWriter.fresh getRequest "news").2.status
        = StatusNotFound
    ∧ StatusOK ≠ StatusServiceUnavailable ∧ StatusNotFound ≠ StatusServiceUnavailable := by
  decide

/-- C2, amended: a call of `ReceiveHTTPMessage` made while the client is not
connected leaves the bridge, and so its queue, unchanged; when the request is a
POST that carries a payload past the ingress guards the response has status 503
and the header `Retry-After` set to twice `CONN_RETRY_DELAY`, which is 6; a
request of another method is answered 404. -/
theorem disconnected_submit (irc : IRCBridge) (w : ResponseWriter) (r : Request)
    (channel : String) (hdown : irc.Client.Connected = false) :
    (irc.ReceiveHTTPMessage w r channel).1 = irc
    ∧ (irc.ReceiveHTTPMessage w r channel).1.Bridge.pending.length = irc.Bridge.pending.length
    ∧ (∀ P, r.Carries P →
        (irc.ReceiveHTTPMessage w r channel).2.status = StatusServiceUnavailable
        ∧ (irc.ReceiveHTTPMessage w r channel).2.Get "Retry-After"
            = some (toString (CONN_RETRY_DELAY * 2))
        ∧ toString (CONN_RETRY_DELAY * 2) = "6"
        ∧ 0 < CONN_RETRY_DELAY * 2)
    ∧ (r.Method ≠ "POST" →
        (irc.ReceiveHTTPMessage w r channel).2 = w.WriteHeader StatusNotFound) := by
  refine ⟨ReceiveHTTPMessage_down irc w r channel hdown, ?_, ?_, ?_⟩
  · rw [ReceiveHTTPMessage_down irc w r channel hdown]
  · intro P hP
    rw [ReceiveHTTPMessage_carries_down irc w r channel P hdown hP]
    refine ⟨rfl, ?_, by decide, by decide⟩
    simp only [ResponseWriter.WriteHeader]
    exact Get_Set w _ _
  · intro hm
    unfold IRCBridge.ReceiveHTTPMessage
    rw [if_pos hm]

/-- C2, witness: the bridge of `main` with the connection down and a POST with
the raw body `hello`. -/
theorem disconnected_submit_witness :
    connDown.Connected = false
    ∧ ((mainBridge connDown).ReceiveHTTPMessage ResponseWriter.fresh (rawPost "hello") "news").1
        = mainBridge connDown
    ∧ ((mainBridge connDown).ReceiveHTTPMessage ResponseWriter.fresh (rawPost "hello") "news").2
        = { status := 503, header := [("Retry-After", "6")], body := "" } :=
  ⟨rfl,
   (disconnected_submit (mainBridge connDown) ResponseWriter.fresh (rawPost "hello") "news"
      rfl).1,
   by decide⟩

/-- The form branch of `ReceiveHTTPMessage` drops a blank `msg`: nothing is
enqueued and nothing is written to the response, whatever the connection
state. -/
theorem form_blank_is_noop (irc : IRCBridge) (w : ResponseWriter) (r : Request)
    (channel : String) (hpost : r.Method = "POST") (hform : r.isForm)
    (hblank : (TrimSpace r.FormMsg).length = 0) :
    irc.ReceiveHTTPMessage w r channel = (irc, w) := by
  have hf' : r.ContentType = "application/x-www-form-urlencoded"
      ∨ r.ContentType = "multipart/form-data" := hform
  unfold IRCBridge.ReceiveHTTPMessage
  rw [if_neg (by simpa using hpost)]
  simp only [readMessage, if_pos hf', if_pos hblank]

/-- C4, the code at the failing input: a POST with an empty raw body (content
type `text/plain`) received while connected is enqueued, and the consumer loop
sends the empty text to the channel; so is a raw body of white space only.
With the connection down the same request is answered 503. The form branch
drops the same payload. -/
theorem raw_blank_body_is_enqueued :
    TrimSpace "" = "" ∧ TrimSpace " \n" = ""
    ∧ connUp.Connected = true
    ∧ ((mainBridge connUp).ReceiveHTTPMessage ResponseWriter.fresh (rawPost "") "news").1.Bridge.pending
        = [{ Channel := "news", Message := "" }]
    ∧ (IRCBridge.recv goodNetwork 1
        ((mainBridge connUp).ReceiveHTTPMessage ResponseWriter.fresh (rawPost "") "news").1).Client.log
        = [Effect.Privmsg "#news" ""]
    ∧ ((mainBridge connUp).ReceiveHTTPMessage ResponseWriter.fresh (rawPost " \n") "news").1.Bridge.pending
        = [{ Channel := "news", Message := " \n" }]
    ∧ ((mainBridge connDown).ReceiveHTTPMessage ResponseWriter.fresh (rawPost "") "news").2.status
        = StatusServiceUnavailable
    ∧ ((mainBridge connUp).ReceiveHTTPMessage ResponseWriter.fresh (formPost "") "news").1.Bridge.pending
        = [] := by
  decide

/-! ## The queue between the ingress and the consumer loop -/

theorem Chan.recv_of_pending_nil {α : Type} (ch : Chan α) (h : ch.pending = []) :
    ch.recv = none := by
  obtain ⟨cap, buf, sendq⟩ := ch
  simp only [Chan.pending, List.append_eq_nil] at h
  obtain ⟨h1, h2⟩ := h
  subst h1; subst h2
  rfl

theorem Chan.recv_of_pending_cons {α : Type} (ch : Chan α) (m : α) (rest : List α)
    (h : ch.pending = m :: rest) :
    ∃ ch', ch.recv = some (m, ch') ∧ ch'.pending = rest ∧ ch'.cap = ch.cap := by
  obtain ⟨cap, buf, sendq⟩ := ch
  cases buf with
  | nil =>
    cases sendq with
    | nil => simp [Chan.pending] at h
    | cons s sq =>
      simp only [Chan.pending, List.nil_append, List.cons.injEq] at h
      obtain ⟨rfl, rfl⟩ := h
      exact ⟨_, rfl, rfl, rfl⟩
  | cons v buf' =>
    simp only [Chan.pending, List.cons_append, List.cons.injEq] at h
    obtain ⟨rfl, rfl⟩ := h
    cases sendq with
    | nil => exact ⟨_, rfl, rfl, rfl⟩
    | cons s sq => exact ⟨_, rfl, by simp [Chan.pending], rfl⟩

theorem Chan.send_pending_of_cap_zero {α : Type} (ch : Chan α) (v : α) (h : ch.cap = 0) :
    (ch.send v).pending = ch.pending ++ [v] ∧ (ch.send v).cap = 0 := by
  simp [Chan.send, h, Chan.pending]

theorem Emit_Client (net : Network) (irc : IRCBridge) (channel message : String) :
    (irc.Emit net channel message).Client
      = (if !irc.Client.IsOn channel irc.Client.Nick then irc.Client.Join net channel
         else irc.Client).Privmsg channel message := by
  unfold IRCBridge.Emit
  cases h : irc.Client.IsOn channel irc.Client.Nick <;> simp

theorem emitAll_Client_congr (net : Network) (channel : String) (lines : List String) :
    ∀ a b : IRCBridge, a.Client = b.Client →
      (lines.foldl (fun irc line => irc.Emit net channel line) a).Client
        = (lines.foldl (fun irc line => irc.Emit net channel line) b).Client := by
  induction lines with
  | nil => intro a b h; exact h
  | cons l ls ih =>
    intro a b h
    rw [List.foldl_cons, List.foldl_cons]
    apply ih
    rw [Emit_Client, Emit_Client, h]

theorem emitAll_Bridge (net : Network) (channel : String) (lines : List String) :
    ∀ a : IRCBridge,
      (lines.foldl (fun irc line => irc.Emit net channel line) a).Bridge = a.Bridge := by
  induction lines with
  | nil => intro a; rfl
  | cons l ls ih =>
    intro a
    rw [List.foldl_cons, ih, Emit_Bridge]

theorem deliver_Client_congr (net : Network) (a b : IRCBridge) (msg : ChannelMessage)
    (h : a.Client = b.Client) : (a.deliver net msg).Client = (b.deliver net msg).Client := by
  unfold IRCBridge.deliver
  exact emitAll_Client_congr net _ _ a b h

theorem deliver_Bridge (net : Network) (a : IRCBridge) (msg : ChannelMessage) :
    (a.deliver net msg).Bridge = a.Bridge := by
  unfold IRCBridge.deliver
  exact emitAll_Bridge net _ _ a

theorem deliverAll_Client_congr (net : Network) (msgs : List ChannelMessage) :
    ∀ a b : IRCBridge, a.Client = b.Client →
      (msgs.foldl (fun irc m => irc.deliver net m) a).Client
        = (msgs.foldl (fun irc m => irc.deliver net m) b).Client := by
  induction msgs with
  | nil => intro a b h; exact h
  | cons m ms ih =>
    intro a b h
    rw [List.foldl_cons, List.foldl_cons]
    exact ih _ _ (deliver_Client_congr net a b m h)

/-- With fuel for every pending message the consumer loop delivers them all, in
the order of the queue, and then waits on the empty queue. -/
theorem recv_all (net : Network) :
    ∀ (fuel : Nat) (irc : IRCBridge), irc.Bridge.pending.length ≤ fuel →
      (IRCBridge.recv net fuel irc).Client
          = (irc.Bridge.pending.foldl (fun irc m => irc.deliver net m) irc).Client
        ∧ (IRCBridge.recv net fuel irc).Bridge.pending = [] := by
  intro fuel
  induction fuel with
  | zero =>
    intro irc h
    have hp : irc.Bridge.pending = [] := List.length_eq_zero.1 (Nat.le_zero.1 h)
    simp [IRCBridge.recv, hp]
  | succ n ih =>
    intro irc h
    cases hp : irc.Bridge.pending with
    | nil => simp [IRCBridge.recv, Chan.recv_of_pending_nil _ hp, hp]
    | cons m rest =>
      obtain ⟨ch', hr, hrest, _⟩ := Chan.recv_of_pending_cons _ m rest hp
      have hlen : (({ irc with Bridge := ch' } : IRCBridge).deliver net m).Bridge.pending.length
          ≤ n := by
        rw [deliver_Bridge]
        simp only [hrest]
        rw [hp] at h
        simpa using h
      obtain ⟨h1, h2⟩ := ih _ hlen
      simp only [IRCBridge.recv, hr]
      refine ⟨?_, h2⟩
      rw [h1, List.foldl_cons, deliver_Bridge]
      simp only [hrest]
      apply deliverAll_Client_congr
      exact deliver_Client_congr net _ _ m rfl

theorem deliverAll_log (net : Network) (msgs : List ChannelMessage) :
    ∀ irc : IRCBridge, ∃ E,
      (msgs.foldl (fun irc m => irc.deliver net m) irc).Client.log = irc.Client.log ++ E := by
  induction msgs with
  | nil => intro irc; exact ⟨[], by simp⟩
  | cons m ms ih =>
    intro irc
    obtain ⟨E1, h1⟩ := deliver_log net irc m.Channel m.Message
    obtain ⟨E2, h2⟩ := ih (irc.deliver net m)
    exact ⟨E1 ++ E2, by rw [List.foldl_cons, h2, h1.1, List.append_assoc]⟩

theorem bytesSplit_one_line (P : String) (h : '\n' ∉ P.data) : bytesSplit P = [P] := by
  have hs : ∀ l : List Char, '\n' ∉ l → splitNewline l = [l] := by
    intro l
    induction l with
    | nil => intro _; rfl
    | cons c cs ih =>
      intro hl
      have hc : c ≠ '\n' := fun hc => hl (by simp [hc])
      have hcs : '\n' ∉ cs := fun hcs => hl (List.mem_cons_of_mem _ hcs)
      simp [splitNewline, hc, ih hcs]
  simp [bytesSplit, hs P.data h]

/-! ## No deduplication -/

/-- C8: while connected, two calls of `ReceiveHTTPMessage` with the same
request, carrying payload `P` for target `t`, put two equal messages at the end
of the queue; the consumer loop, after what was queued before (`E0`), delivers
both (`E1` then `E2`), each with one send per line; for a payload of one line
these are two sends of `P` to `"#" ++ t`. -/
theorem no_deduplication (net : Network) (irc : IRCBridge) (w1 w2 : ResponseWriter)
    (r : Request) (t P : String) (fuel : Nat)
    (hup : irc.Client.Connected = true) (hq : irc.Bridge.cap = 0) (hacc : r.Carries P)
    (hfuel : irc.Bridge.pending.length + 2 ≤ fuel) :
    (((irc.ReceiveHTTPMessage w1 r t).1.ReceiveHTTPMessage w2 r t).1.Bridge.pending
        = irc.Bridge.pending
            ++ [{ Channel := t, Message := P }, { Channel := t, Message := P }])
    ∧ ∃ E0 E1 E2,
        (IRCBridge.recv net irc.Bridge.pending.length irc).Client.log = irc.Client.log ++ E0
        ∧ (IRCBridge.recv net fuel
            ((irc.ReceiveHTTPMessage w1 r t).1.ReceiveHTTPMessage w2 r t).1).Client.log
            = irc.Client.log ++ E0 ++ E1 ++ E2
        ∧ sends E1 = (bytesSplit P).map (fun l => ("#" ++ t, l))
        ∧ sends E2 = (bytesSplit P).map (fun l => ("#" ++ t, l))
        ∧ ('\n' ∉ P.data → sends (E1 ++ E2) = [("#" ++ t, P), ("#" ++ t, P)])
        ∧ (IRCBridge.recv net fuel
            ((irc.ReceiveHTTPMessage w1 r t).1.ReceiveHTTPMessage w2 r t).1).Bridge.pending
            = [] := by
  have h1 := ReceiveHTTPMessage_carries_up irc w1 r t P hup hacc
  rw [h1]
  have h2 := ReceiveHTTPMessage_carries_up
    { irc with Bridge := irc.Bridge.send { Channel := t, Message := P } } w2 r t P hup hacc
  rw [h2]
  simp only
  obtain ⟨hp1, hc1⟩ := Chan.send_pending_of_cap_zero irc.Bridge
    ({ Channel := t, Message := P } : ChannelMessage) hq
  obtain ⟨hp2, _⟩ := Chan.send_pending_of_cap_zero
    (irc.Bridge.send ({ Channel := t, Message := P } : ChannelMessage))
    ({ Channel := t, Message := P } : ChannelMessage) hc1
  have hpend : ((irc.Bridge.send ({ Channel := t, Message := P } : ChannelMessage)).send
      ({ Channel := t, Message := P } : ChannelMessage)).pending
      = irc.Bridge.pending
          ++ [{ Channel := t, Message := P }, { Channel := t, Message := P }] := by
    rw [hp2, hp1, List.append_assoc]
    rfl
  refine ⟨hpend, ?_⟩
  obtain ⟨hA, _⟩ := recv_all net irc.Bridge.pending.length irc (Nat.le_refl _)
  obtain ⟨E0, hE0⟩ := deliverAll_log net irc.Bridge.pending irc
  obtain ⟨hB, hBq⟩ := recv_all net fuel
    ({ irc with Bridge := ((irc.Bridge.send ({ Channel := t, Message := P } : ChannelMessage)).send
        ({ Channel := t, Message := P } : ChannelMessage)) } : IRCBridge)
    (by simp only [hpend]; simpa using hfuel)
  simp only [hpend, List.foldl_append, List.foldl_cons, List.foldl_nil] at hB
  obtain ⟨E1, hE1, hs1, _⟩ := deliver_log net
    (irc.Bridge.pending.foldl (fun irc m => irc.deliver net m)
      ({ irc with Bridge := ((irc.Bridge.send ({ Channel := t, Message := P } : ChannelMessage)).send
        ({ Channel := t, Message := P } : ChannelMessage)) } : IRCBridge)) t P
  obtain ⟨E2, hE2, hs2, _⟩ := deliver_log net
    ((irc.Bridge.pending.foldl (fun irc m => irc.deliver net m)
      ({ irc with Bridge := ((irc.Bridge.send ({ Channel := t, Message := P } : ChannelMessage)).send
        ({ Channel := t, Message := P } : ChannelMessage)) } : IRCBridge)).deliver net
      { Channel := t, Message := P }) t P
  have hcong := deliverAll_Client_congr net irc.Bridge.pending
    ({ irc with Bridge := ((irc.Bridge.send ({ Channel := t, Message := P } : ChannelMessage)).send
        ({ Channel := t, Message := P } : ChannelMessage)) } : IRCBridge) irc rfl
  refine ⟨E0, E1, E2, ?_, ?_, hs1, hs2, ?_, hBq⟩
  · rw [hA, hE0]
  · rw [hB, hE2, hE1, hcong, hE0]
  · intro hone
    rw [sends_append, hs1, hs2, bytesSplit_one_line P hone]
    rfl

/-- C8, witness: the bridge of `main`, connected, and twice the POST with the
raw body `hello` for target `news`. -/
theorem no_deduplication_witness :
    connUp.Connected = true ∧ (mainBridge connUp).Bridge.cap = 0
    ∧ (rawPost "hello").Carries "hello"
    ∧ (IRCBridge.recv goodNetwork 2
        (((mainBridge connUp).ReceiveHTTPMessage ResponseWriter.fresh (rawPost "hello") "news"
          ).1.ReceiveHTTPMessage ResponseWriter.fresh (rawPost "hello") "news").1).Client.log
        = [Effect.Privmsg "#news" "hello", Effect.Privmsg "#news" "hello"]
    ∧ (((mainBridge connUp).ReceiveHTTPMessage ResponseWriter.fresh (rawPost "hello") "news"
          ).1.ReceiveHTTPMessage ResponseWriter.fresh (rawPost "hello") "news").1.Bridge.pending
        = (mainBridge connUp).Bridge.pending
            ++ [{ Channel := "news", Message := "hello" },
                { Channel := "news", Message := "hello" }] :=
  ⟨rfl, rfl, ⟨rfl, Or.inr ⟨by decide, rfl⟩⟩, by decide,
   (no_deduplication goodNetwork (mainBridge connUp) ResponseWriter.fresh ResponseWriter.fresh
      (rawPost "hello") "news" "hello" 2 rfl rfl ⟨rfl, Or.inr ⟨by decide, rfl⟩⟩
      (by decide)).1⟩

/-! ## The queue is a hand-off -/

theorem ReceiveHTTPMessage_Bridge (irc : IRCBridge) (w : ResponseWriter) (r : Request)
    (channel : String) :
    (irc.ReceiveHTTPMessage w r channel).1.Bridge = irc.Bridge
      ∨ ∃ msg, (irc.ReceiveHTTPMessage w r channel).1.Bridge
          = irc.Bridge.send { Channel := channel, Message := msg } := by
  unfold IRCBridge.ReceiveHTTPMessage
  split
  · exact Or.inl rfl
  · split
    · exact Or.inl rfl
    · rename_i msg _ _
      cases h : irc.Client.Connected
      · exact Or.inl (by simp [h])
      · exact Or.inr ⟨msg, by simp [h]⟩

theorem System.receive_inv (irc : IRCBridge) (hc : irc.Bridge.cap = 0)
    (hb : irc.Bridge.buf = []) :
    (System.receive irc).parrot.Bridge.cap = 0 ∧ (System.receive irc).parrot.Bridge.buf = []
      ∧ ((System.receive irc).consumer = none → (System.receive irc).parrot.Bridge.sendq = []) := by
  obtain ⟨client, ⟨cap, buf, sendq⟩, addr⟩ := irc
  simp only at hc hb
  subst hc; subst hb
  cases sendq with
  | nil => simp [System.receive, Chan.recv]
  | cons s sq => simp [System.receive, Chan.recv]

theorem System.step_inv (net : Network) (s : System) (e : Event)
    (h : s.parrot.Bridge.cap = 0 ∧ s.parrot.Bridge.buf = []
      ∧ (s.consumer = none → s.parrot.Bridge.sendq = [])) :
    (s.step net e).parrot.Bridge.cap = 0 ∧ (s.step net e).parrot.Bridge.buf = []
      ∧ ((s.step net e).consumer = none → (s.step net e).parrot.Bridge.sendq = []) := by
  obtain ⟨hc, hb, hq⟩ := h
  cases e with
  | request w r channel =>
    have hcb : (s.parrot.ReceiveHTTPMessage w r channel).1.Bridge.cap = 0
        ∧ (s.parrot.ReceiveHTTPMessage w r channel).1.Bridge.buf = [] := by
      rcases ReceiveHTTPMessage_Bridge s.parrot w r channel with h1 | ⟨msg, h1⟩
      · rw [h1]; exact ⟨hc, hb⟩
      · rw [h1]; simp [Chan.send, hc, hb]
    cases hcons : s.consumer with
    | none =>
      simp only [System.step, hcons]
      exact System.receive_inv _ hcb.1 hcb.2
    | some msg =>
      simp only [System.step, hcons]
      exact ⟨hcb.1, hcb.2, fun hn => by simp at hn⟩
  | delivered =>
    cases hcons : s.consumer with
    | none =>
      simp only [System.step, hcons]
      exact ⟨hc, hb, fun _ => hq hcons⟩
    | some msg =>
      simp only [System.step, hcons]
      exact System.receive_inv _ (by rw [deliver_Bridge]; exact hc)
        (by rw [deliver_Bridge]; exact hb)

theorem System.run_inv (net : Network) (events : List Event) :
    ∀ s : System,
      (s.parrot.Bridge.cap = 0 ∧ s.parrot.Bridge.buf = []
        ∧ (s.consumer = none → s.parrot.Bridge.sendq = [])) →
      (s.run net events).parrot.Bridge.cap = 0 ∧ (s.run net events).parrot.Bridge.buf = []
        ∧ ((s.run net events).consumer = none → (s.run net events).parrot.Bridge.sendq = []) := by
  induction events with
  | nil => intro s h; exact h
  | cons e es ih =>
    intro s h
    exact ih (s.step net e) (System.step_inv net s e h)

/-- C9, counterexample: in the system of `main`, connected, a first POST is
taken at once by the goroutine of `recv`, which was blocked in its receive and
now delivers it; a second POST made during that delivery is not buffered and
stays with its handler, blocked in the send, until the delivery has ended and
`recv` receives again. -/
theorem enqueue_waits_while_consumer_delivers :
    (System.start connUp "irc.freenode.net").parrot.Bridge.cap = 0
    ∧ (System.run goodNetwork (System.start connUp "irc.freenode.net")
        [Event.request ResponseWriter.fresh (rawPost "hello") "news"]).consumer
        = some { Channel := "news", Message := "hello" }
    ∧ (System.run goodNetwork (System.start connUp "irc.freenode.net")
        [Event.request ResponseWriter.fresh (rawPost "hello") "news"]).parrot.Bridge.sendq = []
    ∧ (System.run goodNetwork (System.start connUp "irc.freenode.net")
        [Event.request ResponseWriter.fresh (rawPost "hello") "news",
         Event.request ResponseWriter.fresh (rawPost "again") "news"]).consumer
        = some { Channel := "news", Message := "hello" }
    ∧ (System.run goodNetwork (System.start connUp "irc.freenode.net")
        [Event.request ResponseWriter.fresh (rawPost "hello") "news",
         Event.request ResponseWriter.fresh (rawPost "again") "news"]).parrot.Bridge.sendq
        = [{ Channel := "news", Message := "again" }]
    ∧ (System.run goodNetwork (System.start connUp "irc.freenode.net")
        [Event.request ResponseWriter.fresh (rawPost "hello") "news",
         Event.request ResponseWriter.fresh (rawPost "again") "news"]).parrot.Bridge.buf = []
    ∧ (System.run goodNetwork (System.start connUp "irc.freenode.net")
        [Event.request ResponseWriter.fresh (rawPost "hello") "news",
         Event.request ResponseWriter.fresh (rawPost "again") "news",
         Event.delivered]).parrot.Bridge.sendq = []
    ∧ (System.run goodNetwork (System.start connUp "irc.freenode.net")
        [Event.request ResponseWriter.fresh (rawPost "hello") "news",
         Event.request ResponseWriter.fresh (rawPost "again") "news",
         Event.delivered]).consumer = some { Channel := "news", Message := "again" } := by
  decide

/-- C9, amended: in every state that the system of `main` reaches the queue has
capacity 0 and buffers nothing. A call of `ReceiveHTTPMessage` that is accepted
while connected completes its send at once when the goroutine of `recv` is
blocked in its receive: the message goes to that goroutine and no sender is left
blocked. When the goroutine of `recv` is busy with a delivery, the message is
not buffered and stays with its handler, one more sender blocked in the send. -/
theorem enqueue_completes_only_when_consumer_waits (net : Network) (s : System)
    (w : ResponseWriter) (r : Request) (channel P : String)
    (hreach : s.Reachable net) (hup : s.parrot.Client.Connected = true)
    (hacc : r.Carries P) :
    s.parrot.Bridge.cap = 0 ∧ s.parrot.Bridge.buf = []
    ∧ (s.consumer = none →
        (s.step net (Event.request w r channel)).consumer
            = some { Channel := channel, Message := P }
        ∧ (s.step net (Event.request w r channel)).parrot.Bridge.sendq = []
        ∧ (s.step net (Event.request w r channel)).parrot.Bridge.buf = [])
    ∧ (∀ msg, s.consumer = some msg →
        (s.step net (Event.request w r channel)).consumer = some msg
        ∧ { Channel := channel, Message := P }
            ∈ (s.step net (Event.request w r channel)).parrot.Bridge.sendq
        ∧ (s.step net (Event.request w r channel)).parrot.Bridge.sendq.length
            = s.parrot.Bridge.sendq.length + 1
        ∧ (s.step net (Event.request w r channel)).parrot.Bridge.buf = []) := by
  obtain ⟨c, addr, events, rfl⟩ := hreach
  obtain ⟨hc, hb, hq⟩ := System.run_inv net events (System.start c addr)
    ⟨rfl, rfl, fun _ => rfl⟩
  generalize System.run net (System.start c addr) events = s at hc hb hq hup
  have hrecv := ReceiveHTTPMessage_carries_up s.parrot w r channel P hup hacc
  refine ⟨hc, hb, ?_, ?_⟩
  · intro hnone
    have hs := hq hnone
    obtain ⟨⟨client, ⟨cap, buf, sendq⟩, addr'⟩, consumer⟩ := s
    simp only at hc hb hs hnone hrecv
    subst hc; subst hb; subst hs; subst hnone
    simp [System.step, hrecv, System.receive, Chan.send, Chan.recv]
  · intro msg hsome
    obtain ⟨⟨client, ⟨cap, buf, sendq⟩, addr'⟩, consumer⟩ := s
    simp only at hc hb hsome hrecv
    subst hc; subst hb; subst hsome
    simp [System.step, hrecv, Chan.send]

/-- C9, witness: the system of `main` while the goroutine of `recv` delivers a
first message, and a second accepted POST. -/
theorem enqueue_completes_only_when_consumer_waits_witness :
    (System.run goodNetwork (System.start connUp "irc.freenode.net")
        [Event.request ResponseWriter.fresh (rawPost "hello") "news"]).Reachable goodNetwork
    ∧ (System.run goodNetwork (System.start connUp "irc.freenode.net")
        [Event.request ResponseWriter.fresh (rawPost "hello") "news"]).parrot.Client.Connected
        = true
    ∧ (rawPost "again").Carries "again"
    ∧ (System.run goodNetwork (System.start connUp "irc.freenode.net")
        [Event.request ResponseWriter.fresh (rawPost "hello") "news"]).parrot.Bridge.cap = 0 :=
  ⟨⟨connUp, "irc.freenode.net", _, rfl⟩, by decide, ⟨rfl, Or.inr ⟨by decide, rfl⟩⟩,
   (enqueue_completes_only_when_consumer_waits goodNetwork
      (System.run goodNetwork (System.start connUp "irc.freenode.net")
        [Event.request ResponseWriter.fresh (rawPost "hello") "news"])
      ResponseWriter.fresh (rawPost "again") "news" "again"
      ⟨connUp, "irc.freenode.net", _, rfl⟩ (by decide) ⟨rfl, Or.inr ⟨by decide, rfl⟩⟩).1⟩

/-! ## Connection life cycle -/

theorem Join_fields (net : Network) (c : Conn) (channel : String) :
    (c.Join net channel).log = c.log ++ [Effect.Join channel]
    ∧ (c.Join net channel).connected = c.connected
    ∧ (c.Join net channel).attempts = c.attempts
    ∧ (c.Join net channel).SSL = c.SSL
    ∧ (c.Join net channel).Nick = c.Nick := by
  simp [Conn.Join]

theorem connectedHandler_fields (flags : Flags) (net : Network) (c : Conn) :
    (connectedHandler flags net c).log = c.log ++ connectedEffects flags
    ∧ (connectedHandler flags net c).connected = c.connected
    ∧ (connectedHandler flags net c).attempts = c.attempts
    ∧ (connectedHandler flags net c).SSL = c.SSL := by
  unfold connectedHandler connectedEffects
  by_cases h : flags.nickPassword.length > 0
  · simp [h, Conn.Privmsg, Conn.Join]
  · simp [h, Conn.Join]

theorem connect_ok (flags : Flags) (net : Network) (irc : IRCBridge)
    (h : net.accepts irc.Client.attempts = true) :
    ∃ irc', irc.connect flags net = (irc', none)
      ∧ irc'.Client.log = irc.Client.log
          ++ [Effect.Connect irc.IrcAddress (irc.Client.SSL || flags.ircSSL)]
          ++ connectedEffects flags
      ∧ irc'.Client.connected = true
      ∧ irc'.Client.attempts = irc.Client.attempts + 1
      ∧ irc'.IrcAddress = irc.IrcAddress := by
  unfold IRCBridge.connect Conn.Connect
  cases hs : flags.ircSSL <;>
    simp [h, (connectedHandler_fields flags net _).1, (connectedHandler_fields flags net _).2]

theorem connect_fail (flags : Flags) (net : Network) (irc : IRCBridge)
    (h : net.accepts irc.Client.attempts = false) :
    ∃ irc' e, irc.connect flags net = (irc', some e)
      ∧ irc'.Client.log = irc.Client.log
          ++ [Effect.Connect irc.IrcAddress (irc.Client.SSL || flags.ircSSL)]
      ∧ irc'.Client.SSL = (irc.Client.SSL || flags.ircSSL)
      ∧ irc'.Client.attempts = irc.Client.attempts + 1
      ∧ irc'.IrcAddress = irc.IrcAddress := by
  unfold IRCBridge.connect Conn.Connect
  cases hs : flags.ircSSL <;> simp [h]

theorem connectRetryLoop_done (flags : Flags) (net : Network) (fuel : Nat) (irc : IRCBridge) :
    IRCBridge.connectRetryLoop flags net fuel (irc, none) = some irc := by
  cases fuel <;> rfl

theorem connectRetryLoop_spec (flags : Flags) (net : Network) :
    ∀ (K fuel : Nat) (irc : IRCBridge) (e : String), K + 1 ≤ fuel →
      (∀ i, i < K → net.accepts (irc.Client.attempts + i) = false) →
      net.accepts (irc.Client.attempts + K) = true →
      ∃ irc', IRCBridge.connectRetryLoop flags net fuel (irc, some e) = some irc'
        ∧ irc'.Client.log = irc.Client.log
            ++ (List.replicate (K + 1)
                [Effect.Sleep CONN_RETRY_DELAY,
                 Effect.Connect irc.IrcAddress (irc.Client.SSL || flags.ircSSL)]).flatten
            ++ connectedEffects flags
        ∧ irc'.Client.connected = true
        ∧ irc'.Client.attempts = irc.Client.attempts + K + 1 := by
  intro K
  induction K with
  | zero =>
    intro fuel irc e hfuel _ hok
    obtain ⟨f, rfl⟩ : ∃ f, fuel = f + 1 := ⟨fuel - 1, by omega⟩
    obtain ⟨irc', hc, hlog, hcon, hatt, _⟩ :=
      connect_ok flags net (irc.Sleep CONN_RETRY_DELAY) (by simpa [IRCBridge.Sleep] using hok)
    refine ⟨irc', ?_, ?_, hcon, ?_⟩
    · simp only [IRCBridge.connectRetryLoop, hc, connectRetryLoop_done]
    · rw [hlog]; simp [IRCBridge.Sleep]
    · rw [hatt]; simp [IRCBridge.Sleep]
  | succ K ih =>
    intro fuel irc e hfuel hfail hok
    obtain ⟨f, rfl⟩ : ∃ f, fuel = f + 1 := ⟨fuel - 1, by omega⟩
    have h0 : net.accepts (irc.Sleep CONN_RETRY_DELAY).Client.attempts = false := by
      simpa [IRCBridge.Sleep] using hfail 0 (Nat.succ_pos K)
    obtain ⟨irc1, e1, hc, hlog, hssl, hatt, haddr⟩ :=
      connect_fail flags net (irc.Sleep CONN_RETRY_DELAY) h0
    have hatt' : irc1.Client.attempts = irc.Client.attempts + 1 := by
      rw [hatt]; simp [IRCBridge.Sleep]
    obtain ⟨irc', hr, hlog', hcon, hatt''⟩ := ih f irc1 e1 (by omega)
      (by
        intro i hi
        rw [hatt']
        have := hfail (i + 1) (by omega)
        rwa [show irc.Client.attempts + 1 + i = irc.Client.attempts + (i + 1) by omega])
      (by
        rw [hatt']
        rwa [show irc.Client.attempts + 1 + K = irc.Client.attempts + (K + 1) by omega])
    refine ⟨irc', ?_, ?_, hcon, ?_⟩
    · simp only [IRCBridge.connectRetryLoop, hc, hr]
    · rw [hlog', hlog, hssl, haddr]
      simp [IRCBridge.Sleep, List.replicate_succ, List.append_assoc]
    · rw [hatt'', hatt']; omega

theorem connectRetry_spec (flags : Flags) (net : Network) (irc : IRCBridge) (N fuel : Nat)
    (hfail : ∀ i, i < N → net.accepts (irc.Client.attempts + i) = false)
    (hok : net.accepts (irc.Client.attempts + N) = true) (hfuel : N ≤ fuel) :
    ∃ irc', irc.connectRetry flags net fuel = some irc'
      ∧ irc'.Client.log = irc.Client.log
          ++ retryTrace irc.IrcAddress (irc.Client.SSL || flags.ircSSL) N
          ++ connectedEffects flags
      ∧ irc'.Client.connected = true
      ∧ irc'.Client.attempts = irc.Client.attempts + N + 1 := by
  unfold IRCBridge.connectRetry
  cases N with
  | zero =>
    obtain ⟨irc', hc, hlog, hcon, hatt, _⟩ := connect_ok flags net irc (by simpa using hok)
    refine ⟨irc', ?_, ?_, hcon, ?_⟩
    · rw [hc, connectRetryLoop_done]
    · rw [hlog]; simp [retryTrace]
    · rw [hatt]
  | succ K =>
    obtain ⟨irc1, e1, hc, hlog, hssl, hatt, haddr⟩ :=
      connect_fail flags net irc (by simpa using hfail 0 (Nat.succ_pos K))
    obtain ⟨irc', hr, hlog', hcon, hatt'⟩ := connectRetryLoop_spec flags net K fuel irc1 e1
      (by omega)
      (by
        intro i hi
        rw [hatt]
        have := hfail (i + 1) (by omega)
        rwa [show irc.Client.attempts + 1 + i = irc.Client.attempts + (i + 1) by omega])
      (by
        rw [hatt]
        rwa [show irc.Client.attempts + 1 + K = irc.Client.attempts + (K + 1) by omega])
    refine ⟨irc', ?_, ?_, hcon, ?_⟩
    · rw [hc, hr]
    · rw [hlog', hlog, hssl, haddr]
      simp [retryTrace, List.append_assoc]
    · rw [hatt', hatt]; omega

theorem connects_retryTrace (server : String) (ssl : Bool) (N : Nat) :
    connects (retryTrace server ssl N) = N + 1 := by
  have h : ∀ n, connects (List.replicate n
      [Effect.Sleep CONN_RETRY_DELAY, Effect.Connect server ssl]).flatten = n := by
    intro n
    induction n with
    | zero => rfl
    | succ n ih =>
      rw [List.replicate_succ, List.flatten_cons]
      show connects (List.replicate n _).flatten + 1 = n + 1
      rw [ih]
  show connects (List.replicate N _).flatten + 1 = N + 1
  rw [h]

theorem sleeps_retryTrace (server : String) (ssl : Bool) (N : Nat) :
    sleeps (retryTrace server ssl N) = List.replicate N CONN_RETRY_DELAY := by
  show sleeps (List.replicate N
    [Effect.Sleep CONN_RETRY_DELAY, Effect.Connect server ssl]).flatten = _
  induction N with
  | zero => rfl
  | succ n ih =>
    rw [List.replicate_succ, List.flatten_cons, List.replicate_succ]
    show CONN_RETRY_DELAY :: sleeps (List.replicate n _).flatten = _
    rw [ih]

theorem joins_retryTrace (server : String) (ssl : Bool) (N : Nat) :
    joins (retryTrace server ssl N) = [] := by
  show joins (List.replicate N
    [Effect.Sleep CONN_RETRY_DELAY, Effect.Connect server ssl]).flatten = _
  induction N with
  | zero => rfl
  | succ n ih =>
    rw [List.replicate_succ, List.flatten_cons]
    show joins (List.replicate n _).flatten = _
    rw [ih]

theorem joins_connectedEffects (flags : Flags) :
    joins (connectedEffects flags) = ["#" ++ flags.defaultChannel] := by
  unfold connectedEffects
  by_cases h : flags.nickPassword.length > 0 <;> simp [h, joins]

/-- C7: after a `disconnected` event, when the next `N` connection attempts fail
and the one after them succeeds, the handler (with fuel for `N` retries) ends;
its effects are the join issued by the `disconnected` handler, then
`retryTrace`: the first attempt and `N` times a sleep of `CONN_RETRY_DELAY`
seconds followed by an attempt, which are `N + 1` attempts and `N` sleeps and
no join, then the effects of the `connected` handler, with exactly one join, of
`"#" ++ defaultChannel`. `connectRetry` alone has the same effects without the
first join. -/
theorem reconnect_after_failures (flags : Flags) (net : Network) (parrot : IRCBridge)
    (N fuel : Nat)
    (hfail : ∀ i, i < N → net.accepts (parrot.Client.attempts + i) = false)
    (hok : net.accepts (parrot.Client.attempts + N) = true) (hfuel : N ≤ fuel) :
    (∃ parrot', disconnectedHandler flags net fuel parrot = some parrot'
      ∧ parrot'.Client.log = parrot.Client.log
          ++ [Effect.Join ("#" ++ flags.defaultChannel)]
          ++ retryTrace parrot.IrcAddress (parrot.Client.SSL || flags.ircSSL) N
          ++ connectedEffects flags
      ∧ parrot'.Client.Connected = true
      ∧ parrot'.Client.attempts = parrot.Client.attempts + N + 1)
    ∧ (∃ parrot', parrot.connectRetry flags net fuel = some parrot'
      ∧ parrot'.Client.log = parrot.Client.log
          ++ retryTrace parrot.IrcAddress (parrot.Client.SSL || flags.ircSSL) N
          ++ connectedEffects flags
      ∧ parrot'.Client.Connected = true)
    ∧ connects (retryTrace parrot.IrcAddress (parrot.Client.SSL || flags.ircSSL) N) = N + 1
    ∧ sleeps (retryTrace parrot.IrcAddress (parrot.Client.SSL || flags.ircSSL) N)
        = List.replicate N CONN_RETRY_DELAY
    ∧ joins (retryTrace parrot.IrcAddress (parrot.Client.SSL || flags.ircSSL) N) = []
    ∧ connects (connectedEffects flags) = 0
    ∧ joins (connectedEffects flags) = ["#" ++ flags.defaultChannel] := by
  refine ⟨?_, ?_, connects_retryTrace _ _ N, sleeps_retryTrace _ _ N, joins_retryTrace _ _ N,
    ?_, joins_connectedEffects flags⟩
  · obtain ⟨hjl, _, hja, hjs, _⟩ :=
      Join_fields net parrot.Client ("#" ++ flags.defaultChannel)
    obtain ⟨p', hp, hlog, hcon, hatt⟩ := connectRetry_spec flags net
      { parrot with Client := parrot.Client.Join net ("#" ++ flags.defaultChannel) } N fuel
      (by simpa only [hja] using hfail) (by simpa only [hja] using hok) hfuel
    refine ⟨p', hp, ?_, hcon, ?_⟩
    · rw [hlog]; simp only [hjl, hjs]
    · rw [hatt]; simp only [hja]
  · obtain ⟨p', hp, hlog, hcon, _⟩ := connectRetry_spec flags net parrot N fuel hfail hok hfuel
    exact ⟨p', hp, hlog, hcon⟩
  · unfold connectedEffects
    by_cases h : flags.nickPassword.length > 0 <;> simp [h, connects]

/-- C7, witness: the bridge of `main` after a disconnection, on a network where
three attempts fail and the fourth succeeds. -/
theorem reconnect_after_failures_witness :
    (∀ i, i < 3 → flakyNetwork.accepts ((mainBridge connDown).Client.attempts + i) = false)
    ∧ flakyNetwork.accepts ((mainBridge connDown).Client.attempts + 3) = true
    ∧ (Option.map (fun p : IRCBridge => p.Client.log)
        (disconnectedHandler defaultFlags flakyNetwork 3 (mainBridge connDown))
        = some [Effect.Join "#parrot",
            Effect.Connect "irc.freenode.net" false,
            Effect.Sleep 3, Effect.Connect "irc.freenode.net" false,
            Effect.Sleep 3, Effect.Connect "irc.freenode.net" false,
            Effect.Sleep 3, Effect.Connect "irc.freenode.net" false,
            Effect.Join "#parrot"])
    ∧ connects (retryTrace (mainBridge connDown).IrcAddress
        ((mainBridge connDown).Client.SSL || defaultFlags.ircSSL) 3) = 3 + 1 :=
  ⟨by decide, by decide, by decide,
   (reconnect_after_failures defaultFlags flakyNetwork (mainBridge connDown) 3 3
      (by decide) (by decide) (by decide)).2.2.1⟩

/-! ## The address pattern: parsing -/

theorem isPunct_of_special (c : Char) (h : special c = true) : isPunct c = true := by
  simp only [special, List.mem_cons, List.mem_singleton, decide_eq_true_eq, List.not_mem_nil,
    or_false] at h
  rcases h with h | h | h | h | h | h | h | h | h | h | h | h | h | h <;> subst h <;> decide

theorem stepNormal_plain (top : Frame) (stack : List Frame) (c : Char)
    (h : special c = false) :
    Parser.stepNormal { mode := Mode.normal, top := top, stack := stack } c
      = some { mode := Mode.normal, top := top.literal c, stack := stack } := by
  have h' := h
  simp only [special, List.mem_cons, List.mem_singleton, decide_eq_false_iff_not,
    List.not_mem_nil, or_false, not_or] at h'
  obtain ⟨h1, _, _, _, _, h6, h7, h8, _⟩ := h'
  simp [Parser.stepNormal, h1, h6, h7, h8, h]

theorem step_quoted (top : Frame) (stack : List Frame) (c : Char) (rest : List Char) :
    List.foldlM Parser.step ({ mode := Mode.normal, top := top, stack := stack } : Parser)
        ((if special c then ['\\', c] else [c]) ++ rest)
      = List.foldlM Parser.step
          ({ mode := Mode.normal, top := top.literal c, stack := stack } : Parser) rest := by
  cases h : special c
  · simp only [Bool.false_eq_true, if_false, List.singleton_append, List.foldlM_cons]
    rw [show Parser.step { mode := Mode.normal, top := top, stack := stack } c
        = some { mode := Mode.normal, top := top.literal c, stack := stack } from
      stepNormal_plain top stack c h]
    rfl
  · simp only [if_true, List.cons_append, List.nil_append, List.foldlM_cons]
    have h1 : Parser.step { mode := Mode.normal, top := top, stack := stack } '\\'
        = some { mode := Mode.escape, top := top, stack := stack } := by
      simp [Parser.step, Parser.stepNormal]
    have h2 : Parser.step { mode := Mode.escape, top := top, stack := stack } c
        = some { mode := Mode.normal, top := top.literal c, stack := stack } := by
      simp [Parser.step, isPunct_of_special c h]
    rw [h1]
    show (Parser.step { mode := Mode.escape, top := top, stack := stack } c >>= _) = _
    rw [h2]
    rfl

theorem foldlM_quoteMeta (l : List Char) :
    ∀ (top : Frame) (stack : List Frame) (rest : List Char),
      List.foldlM Parser.step ({ mode := Mode.normal, top := top, stack := stack } : Parser)
          (quoteMeta l ++ rest)
        = List.foldlM Parser.step
            ({ mode := Mode.normal, top := l.foldl Frame.literal top, stack := stack } : Parser)
            rest := by
  induction l with
  | nil => intro top stack rest; rfl
  | cons c cs ih =>
    intro top stack rest
    have hq : quoteMeta (c :: cs) ++ rest
        = (if special c then ['\\', c] else [c]) ++ (quoteMeta cs ++ rest) := by
      simp [quoteMeta, List.flatMap_cons, List.append_assoc]
    rw [hq, step_quoted, ih]
    rfl

theorem foldl_literal (l : List Char) :
    ∀ f : Frame, l.foldl Frame.literal f
      = { foldCase := f.foldCase, alts := f.alts, cur := literals f.foldCase f.cur l } := by
  induction l with
  | nil => intro f; rfl
  | cons c cs ih =>
    intro f
    rw [List.foldl_cons, ih]
    rfl

/-- The pattern of the PRIVMSG handler always compiles, and to the syntax tree
in which both nicknames are literal texts, whatever characters they hold. -/
theorem Compile_addressPattern (a b : String) :
    Compile (addressPatternText (QuoteMeta a) (QuoteMeta b)) = some (addressPattern a b) := by
  have hdata : (addressPatternText (QuoteMeta a) (QuoteMeta b)).data
      = ['(', '?', 'i', ':'] ++ (quoteMeta a.data ++ ('|' :: (quoteMeta b.data
          ++ ['|', 'p', 'a', 'r', 'r', 'o', 't', ')', '(', '?', ':', ':', '|', ',', ')']))) := by
    simp [addressPatternText, QuoteMeta, String.data_append]
  have h1 : List.foldlM Parser.step Parser.init
      (['(', '?', 'i', ':'] ++ (quoteMeta a.data ++ ('|' :: (quoteMeta b.data
          ++ ['|', 'p', 'a', 'r', 'r', 'o', 't', ')', '(', '?', ':', ':', '|', ',', ')']))))
      = List.foldlM Parser.step
          ({ mode := Mode.normal,
             top := { foldCase := true, alts := none, cur := Regexp.emptyMatch },
             stack := [{ foldCase := false, alts := none, cur := Regexp.emptyMatch }] } : Parser)
          (quoteMeta a.data ++ ('|' :: (quoteMeta b.data
          ++ ['|', 'p', 'a', 'r', 'r', 'o', 't', ')', '(', '?', ':', ':', '|', ',', ')']))) := by
    rfl
  unfold Compile
  rw [hdata, h1, foldlM_quoteMeta, foldl_literal, List.foldlM_cons]
  have h2 : ∀ (f : Frame) (st : List Frame),
      Parser.step { mode := Mode.normal, top := f, stack := st } '|'
        = some { mode := Mode.normal, top := f.bar, stack := st } := by
    intro f st
    simp [Parser.step, Parser.stepNormal]
  rw [h2]
  simp only [Option.bind_eq_bind, Option.some_bind]
  rw [foldlM_quoteMeta, foldl_literal]
  simp [List.foldlM_cons, Parser.step, Parser.stepNormal, special, Frame.bar, Frame.close,
    Frame.literal, addressPattern, literals]

/-! ## The address pattern: matching -/

theorem mem_matchPrefix_literal (fold : Char → Char) (fc : Bool) (c : Char)
    (s rest : List Char) :
    rest ∈ (Regexp.literal fc c).matchPrefix fold s
      ↔ ∃ d, s = d :: rest ∧ (if fc then fold d = fold c else d = c) := by
  cases s with
  | nil => simp [Regexp.matchPrefix]
  | cons d t =>
    cases fc
    · by_cases h : d = c
      · constructor
        · intro hr
          have : rest = t := by simpa [Regexp.matchPrefix, h] using hr
          exact ⟨d, by rw [this], by simpa using h⟩
        · rintro ⟨d', hd', _⟩
          have : rest = t := (List.cons.inj hd').2.symm
          simp [Regexp.matchPrefix, h, this]
      · constructor
        · intro hr
          simp [Regexp.matchPrefix, h] at hr
        · rintro ⟨d', hd', hc⟩
          have hdd : d = d' := (List.cons.inj hd').1
          subst hdd
          exact absurd (by simpa using hc) h
    · by_cases h : fold d = fold c
      · constructor
        · intro hr
          have : rest = t := by simpa [Regexp.matchPrefix, h] using hr
          exact ⟨d, by rw [this], by simpa using h⟩
        · rintro ⟨d', hd', _⟩
          have : rest = t := (List.cons.inj hd').2.symm
          simp [Regexp.matchPrefix, h, this]
      · constructor
        · intro hr
          simp [Regexp.matchPrefix, h] at hr
        · rintro ⟨d', hd', hc⟩
          have hdd : d = d' := (List.cons.inj hd').1
          subst hdd
          exact absurd (by simpa using hc) h

theorem mem_matchPrefix_concat (fold : Char → Char) (a b : Regexp) (s rest : List Char) :
    rest ∈ (Regexp.concat a b).matchPrefix fold s
      ↔ ∃ mid, mid ∈ a.matchPrefix fold s ∧ rest ∈ b.matchPrefix fold mid := by
  simp [Regexp.matchPrefix, List.mem_flatMap]

theorem mem_matchPrefix_alternate (fold : Char → Char) (a b : Regexp) (s rest : List Char) :
    rest ∈ (Regexp.alternate a b).matchPrefix fold s
      ↔ rest ∈ a.matchPrefix fold s ∨ rest ∈ b.matchPrefix fold s := by
  simp [Regexp.matchPrefix]

theorem mem_matchPrefix_emptyMatch (fold : Char → Char) (s rest : List Char) :
    rest ∈ Regexp.emptyMatch.matchPrefix fold s ↔ rest = s := by
  simp [Regexp.matchPrefix]

theorem mem_matchPrefix_literals (fold : Char → Char) (l : List Char) :
    ∀ (r : Regexp) (s rest : List Char),
      rest ∈ (literals true r l).matchPrefix fold s
        ↔ ∃ mid, mid ∈ r.matchPrefix fold s
            ∧ ∃ w, mid = w ++ rest ∧ w.map fold = l.map fold := by
  induction l with
  | nil =>
    intro r s rest
    constructor
    · intro h
      exact ⟨rest, h, [], rfl, rfl⟩
    · rintro ⟨mid, hmid, w, hw, hf⟩
      have : w = [] := by simpa using hf
      subst this
      simpa [hw] using hmid
  | cons c cs ih =>
    intro r s rest
    have hl : literals true r (c :: cs)
        = literals true (Regexp.concat r (Regexp.literal true c)) cs := rfl
    rw [hl, ih]
    constructor
    · rintro ⟨mid, hmid, w, hw, hf⟩
      rw [mem_matchPrefix_concat] at hmid
      obtain ⟨m0, hm0, hlit⟩ := hmid
      rw [mem_matchPrefix_literal] at hlit
      obtain ⟨d, hd, hfd⟩ := hlit
      refine ⟨m0, hm0, d :: w, ?_, ?_⟩
      · rw [hd, hw]; rfl
      · simp only [if_true] at hfd
        simp [hfd, hf]
    · rintro ⟨m0, hm0, w', hw', hf'⟩
      cases w' with
      | nil => simp at hf'
      | cons d w =>
        simp only [List.map_cons, List.cons.injEq] at hf'
        refine ⟨w ++ rest, ?_, w, rfl, hf'.2⟩
        rw [mem_matchPrefix_concat]
        refine ⟨m0, hm0, ?_⟩
        rw [mem_matchPrefix_literal]
        exact ⟨d, by rw [hw']; rfl, by simpa using hf'.1⟩

theorem mem_matchPrefix_text (fold : Char → Char) (l s rest : List Char) :
    rest ∈ (literals true Regexp.emptyMatch l).matchPrefix fold s
      ↔ ∃ w, s = w ++ rest ∧ w.map fold = l.map fold := by
  rw [mem_matchPrefix_literals]
  constructor
  · rintro ⟨mid, hmid, w, hw, hf⟩
    rw [mem_matchPrefix_emptyMatch] at hmid
    exact ⟨w, by rw [← hmid, hw], hf⟩
  · rintro ⟨w, hw, hf⟩
    exact ⟨s, (mem_matchPrefix_emptyMatch fold s s).2 rfl, w, hw, hf⟩

theorem mem_matchPrefix_addressPattern (fold : Char → Char) (a b : String)
    (s rest : List Char) :
    rest ∈ (addressPattern a b).matchPrefix fold s
      ↔ ∃ name ∈ [a, b, "parrot"], ∃ d ∈ [':', ','], ∃ w,
          s = w ++ d :: rest ∧ w.map fold = name.data.map fold := by
  unfold addressPattern
  simp only [mem_matchPrefix_concat, mem_matchPrefix_alternate, mem_matchPrefix_emptyMatch,
    mem_matchPrefix_literal, mem_matchPrefix_text]
  constructor
  · rintro ⟨mid, ⟨m0, rfl, h | h⟩, ht⟩
    · rcases h with ⟨w, hw, hf⟩ | ⟨w, hw, hf⟩
      · rcases ht with ⟨m1, rfl, d, hd, hdc⟩ | ⟨m1, rfl, d, hd, hdc⟩
        · exact ⟨a, by simp, ':', by simp, w, by
            simp only [Bool.false_eq_true, if_false] at hdc
            rw [hw, hd, hdc], hf⟩
        · exact ⟨a, by simp, ',', by simp, w, by
            simp only [Bool.false_eq_true, if_false] at hdc
            rw [hw, hd, hdc], hf⟩
      · rcases ht with ⟨m1, rfl, d, hd, hdc⟩ | ⟨m1, rfl, d, hd, hdc⟩
        · exact ⟨b, by simp, ':', by simp, w, by
            simp only [Bool.false_eq_true, if_false] at hdc
            rw [hw, hd, hdc], hf⟩
        · exact ⟨b, by simp, ',', by simp, w, by
            simp only [Bool.false_eq_true, if_false] at hdc
            rw [hw, hd, hdc], hf⟩
    · obtain ⟨w, hw, hf⟩ := h
      rcases ht with ⟨m1, rfl, d, hd, hdc⟩ | ⟨m1, rfl, d, hd, hdc⟩
      · exact ⟨"parrot", by simp, ':', by simp, w, by
          simp only [Bool.false_eq_true, if_false] at hdc
          rw [hw, hd, hdc], hf⟩
      · exact ⟨"parrot", by simp, ',', by simp, w, by
          simp only [Bool.false_eq_true, if_false] at hdc
          rw [hw, hd, hdc], hf⟩
  · rintro ⟨name, hname, d, hd, w, hw, hf⟩
    refine ⟨d :: rest, ⟨s, rfl, ?_⟩, ?_⟩
    · simp only [List.mem_cons, List.mem_singleton, List.not_mem_nil, or_false] at hname
      rcases hname with rfl | rfl | rfl
      · exact Or.inl (Or.inl ⟨w, hw, hf⟩)
      · exact Or.inl (Or.inr ⟨w, hw, hf⟩)
      · exact Or.inr ⟨w, hw, hf⟩
    · simp only [List.mem_cons, List.mem_singleton, List.not_mem_nil, or_false] at hd
      rcases hd with rfl | rfl
      · exact Or.inl ⟨_, rfl, _, rfl, by simp⟩
      · exact Or.inr ⟨_, rfl, _, rfl, by simp⟩

theorem MatchString_addressPattern (fold : Char → Char) (a b text : String) :
    (addressPattern a b).MatchString fold text = true
      ↔ Addressed fold [a, b, "parrot"] text := by
  unfold Regexp.MatchString Addressed
  rw [List.any_eq_true]
  constructor
  · rintro ⟨t, ht, hne⟩
    rw [List.mem_tails] at ht
    obtain ⟨pre, hpre⟩ := ht
    have hne' : (addressPattern a b).matchPrefix fold t ≠ [] := by
      intro h
      simp [h] at hne
    obtain ⟨rest, hrest⟩ := List.exists_mem_of_ne_nil _ hne'
    rw [mem_matchPrefix_addressPattern] at hrest
    obtain ⟨name, hname, d, hd, w, hw, hf⟩ := hrest
    exact ⟨name, hname, d, hd, pre, w, rest, by rw [← hpre, hw, List.append_assoc], hf⟩
  · rintro ⟨name, hname, d, hd, pre, w, post, htext, hf⟩
    refine ⟨w ++ d :: post, ?_, ?_⟩
    · rw [List.mem_tails]
      exact ⟨pre, by rw [htext, List.append_assoc]⟩
    · have hmem : post ∈ (addressPattern a b).matchPrefix fold (w ++ d :: post) :=
        (mem_matchPrefix_addressPattern fold a b _ post).2 ⟨name, hname, d, hd, w, rfl, hf⟩
      cases hm : (addressPattern a b).matchPrefix fold (w ++ d :: post) with
      | nil => rw [hm] at hmem; simp at hmem
      | cons x xs => rfl

/-! ## The PRIVMSG handler -/

theorem name_within_of_Addressed (fold : Char → Char) (names : List String) (text : String)
    (h : Addressed fold names text) :
    ∃ name ∈ names, name.data.map fold <:+: text.data.map fold := by
  obtain ⟨name, hname, d, _, pre, w, post, htext, hw⟩ := h
  refine ⟨name, hname, pre.map fold, (d :: post).map fold, ?_⟩
  rw [htext, ← hw]
  simp [List.append_assoc]

/-- C5, counterexample: for a bot whose configured and current nick are `polly`
the pattern of the handler matches the text `parrot: hi`, which does not hold
the nickname `polly` at all, so not followed by a colon or a comma either. -/
theorem parrot_matches_without_a_nickname :
    Option.map (fun r : Regexp => r.MatchString foldASCII "parrot: hi")
        (Compile (addressPatternText (QuoteMeta "polly") (QuoteMeta "polly"))) = some true
    ∧ ¬ ("polly".data.map foldASCII <:+: "parrot: hi".data.map foldASCII)
    ∧ ¬ Addressed foldASCII ["polly", "polly"] "parrot: hi" := by
  have hno : ¬ ("polly".data.map foldASCII <:+: "parrot: hi".data.map foldASCII) := by
    decide
  refine ⟨by decide, hno, ?_⟩
  intro h
  obtain ⟨name, hname, hin⟩ := name_within_of_Addressed foldASCII _ _ h
  simp only [List.mem_cons, List.mem_singleton, List.not_mem_nil, or_false, or_self] at hname
  subst hname
  exact hno hin

/-- C5, amended: for every configured nick, current nick and text, and every
case folding, the pattern of the PRIVMSG handler compiles, and it matches the
text exactly when the text contains the configured nick, the current nick or
the literal `parrot`, compared through the folding, immediately followed by a
colon or a comma. With nickname `parrot`: `parrot: hello` and `PARROT, hi`
match, `parroting along` does not. -/
theorem addressPattern_matches_iff_addressed :
    (∀ (fold : Char → Char) (nick me text : String),
      ∃ r, Compile (addressPatternText (QuoteMeta nick) (QuoteMeta me)) = some r
        ∧ (r.MatchString fold text = true ↔ Addressed fold [nick, me, "parrot"] text))
    ∧ Option.map
        (fun r : Regexp =>
          (r.MatchString foldASCII "parrot: hello", r.MatchString foldASCII "PARROT, hi",
            r.MatchString foldASCII "parroting along"))
        (Compile (addressPatternText (QuoteMeta "parrot") (QuoteMeta "parrot")))
      = some (true, true, false) := by
  refine ⟨?_, by decide⟩
  intro fold nick me text
  exact ⟨addressPattern nick me, Compile_addressPattern nick me,
    MatchString_addressPattern fold nick me text⟩

theorem privmsgHandler_eq (fold : Char → Char) (flags : Flags) (url : String) (conn : Conn)
    (line : Line) (channel message : String) (rest : List String)
    (hargs : line.Args = channel :: message :: rest) :
    privmsgHandler fold flags url conn line
      = if channel = conn.Nick then some (conn.Privmsg line.Nick (standardDisclaimer url))
        else if (addressPattern flags.nick conn.Nick).MatchString fold message then
          some (conn.Privmsg channel (standardDisclaimer url))
        else some conn := by
  unfold privmsgHandler
  simp only [hargs, Compile_addressPattern]

/-- C6: on a PRIVMSG line with a target and a text the handler appends the
replies `E` to the log and changes nothing else: `E` is the one canned reply to
the sender when the target is the bot's current nick, whatever the text; the
one canned reply to the channel when the target is another one and the text is
addressed to the bot; no reply otherwise. The same line gets the same replies
from every state of the client with that nick: no state of earlier lines
enters. -/
theorem privmsg_reply (fold : Char → Char) (flags : Flags) (url : String) (conn : Conn)
    (line : Line) (channel message : String) (rest : List String)
    (hargs : line.Args = channel :: message :: rest) :
    ∃ E, privmsgHandler fold flags url conn line = some { conn with log := conn.log ++ E }
      ∧ (channel = conn.Nick → E = [Effect.Privmsg line.Nick (standardDisclaimer url)])
      ∧ (channel ≠ conn.Nick → Addressed fold [flags.nick, conn.Nick, "parrot"] message →
          E = [Effect.Privmsg channel (standardDisclaimer url)])
      ∧ (channel ≠ conn.Nick → ¬ Addressed fold [flags.nick, conn.Nick, "parrot"] message →
          E = [])
      ∧ ∀ conn2 : Conn, conn2.Nick = conn.Nick →
          privmsgHandler fold flags url conn2 line
            = some { conn2 with log := conn2.log ++ E } := by
  by_cases hdm : channel = conn.Nick
  · refine ⟨[Effect.Privmsg line.Nick (standardDisclaimer url)], ?_, fun _ => rfl,
      fun h => absurd hdm h, fun h => absurd hdm h, ?_⟩
    · rw [privmsgHandler_eq fold flags url conn line channel message rest hargs, if_pos hdm]
      rfl
    · intro conn2 h2
      rw [privmsgHandler_eq fold flags url conn2 line channel message rest hargs,
        if_pos (by rw [h2]; exact hdm)]
      rfl
  · by_cases hm : (addressPattern flags.nick conn.Nick).MatchString fold message = true
    · have hadd := (MatchString_addressPattern fold flags.nick conn.Nick message).1 hm
      refine ⟨[Effect.Privmsg channel (standardDisclaimer url)], ?_, fun h => absurd h hdm,
        fun _ _ => rfl, fun _ h => absurd hadd h, ?_⟩
      · rw [privmsgHandler_eq fold flags url conn line channel message rest hargs,
          if_neg hdm, if_pos hm]
        rfl
      · intro conn2 h2
        rw [privmsgHandler_eq fold flags url conn2 line channel message rest hargs,
          if_neg (by rw [h2]; exact hdm), if_pos (by rw [h2]; exact hm)]
        rfl
    · have hadd : ¬ Addressed fold [flags.nick, conn.Nick, "parrot"] message :=
        fun h => hm ((MatchString_addressPattern fold flags.nick conn.Nick message).2 h)
      refine ⟨[], ?_, fun h => absurd h hdm, fun _ h => absurd h hadd, fun _ _ => rfl, ?_⟩
      · rw [privmsgHandler_eq fold flags url conn line channel message rest hargs,
          if_neg hdm, if_neg hm]
        simp
      · intro conn2 h2
        rw [privmsgHandler_eq fold flags url conn2 line channel message rest hargs,
          if_neg (by rw [h2]; exact hdm), if_neg (by rw [h2]; exact hm)]
        simp

/-- C6, witness: a line of `alice` on `#news` addressed to `parrot`; the same
text as a direct message, an unaddressed channel line and a direct message
without the name are evaluated too. -/
theorem privmsg_reply_witness :
    (({ Nick := "alice", Args := ["#news", "parrot: hello"] } : Line).Args
        = "#news" :: "parrot: hello" :: [])
    ∧ (∃ E, privmsgHandler foldASCII defaultFlags "http://bot:5555" connUp
          { Nick := "alice", Args := ["#news", "parrot: hello"] }
          = some { connUp with log := connUp.log ++ E }
        ∧ ("#news" = connUp.Nick →
            E = [Effect.Privmsg "alice" (standardDisclaimer "http://bot:5555")])
        ∧ ("#news" ≠ connUp.Nick →
            Addressed foldASCII [defaultFlags.nick, connUp.Nick, "parrot"] "parrot: hello" →
            E = [Effect.Privmsg "#news" (standardDisclaimer "http://bot:5555")])
        ∧ ("#news" ≠ connUp.Nick →
            ¬ Addressed foldASCII [defaultFlags.nick, connUp.Nick, "parrot"] "parrot: hello" →
            E = [])
        ∧ ∀ conn2 : Conn, conn2.Nick = connUp.Nick →
            privmsgHandler foldASCII defaultFlags "http://bot:5555" conn2
              { Nick := "alice", Args := ["#news", "parrot: hello"] }
              = some { conn2 with log := conn2.log ++ E })
    ∧ Option.map (fun c : Conn => c.log)
        (privmsgHandler foldASCII defaultFlags "http://bot:5555" connUp
          { Nick := "alice", Args := ["#news", "parrot: hello"] })
        = some [Effect.Privmsg "#news" "I'm not very smart, see http://bot:5555"]
    ∧ Option.map (fun c : Conn => c.log)
        (privmsgHandler foldASCII defaultFlags "http://bot:5555" connUp
          { Nick := "alice", Args := ["parrot", "what is up"] })
        = some [Effect.Privmsg "alice" "I'm not very smart, see http://bot:5555"]
    ∧ Option.map (fun c : Conn => c.log)
        (privmsgHandler foldASCII defaultFlags "http://bot:5555" connUp
          { Nick := "alice", Args := ["#news", "parroting along"] })
        = some []
    ∧ Option.map (fun c : Conn => c.log)
        (privmsgHandler foldASCII defaultFlags "http://bot:5555" connUp
          { Nick := "alice", Args := ["#news"] })
        = none :=
  ⟨rfl,
   privmsg_reply foldASCII defaultFlags "http://bot:5555" connUp
     { Nick := "alice", Args := ["#news", "parrot: hello"] } "#news" "parrot: hello" [] rfl,
   by decide, by decide, by decide, by decide⟩

/-- C10: whatever the configured nick and the current nick of the client, a
line to a channel (a target other than the current nick) whose text holds the
letters of `parrot`, in any case, immediately followed by a colon or a comma is
matched by the pattern of the handler, and the handler sends the canned reply,
and only it, to that channel. -/
theorem parrot_literal_always_replies (fold : Char → Char) (flags : Flags) (url : String)
    (conn : Conn) (line : Line) (channel message : String) (rest : List String)
    (pre w post : List Char) (d : Char)
    (hargs : line.Args = channel :: message :: rest) (hchan : channel ≠ conn.Nick)
    (htext : message.data = pre ++ w ++ d :: post)
    (hw : w.map fold = "parrot".data.map fold) (hd : d = ':' ∨ d = ',') :
    (∃ r, Compile (addressPatternText (QuoteMeta flags.nick) (QuoteMeta conn.Nick)) = some r
      ∧ r.MatchString fold message = true)
    ∧ privmsgHandler fold flags url conn line
        = some { conn with
                 log := conn.log ++ [Effect.Privmsg channel (standardDisclaimer url)] } := by
  have hadd : Addressed fold [flags.nick, conn.Nick, "parrot"] message :=
    ⟨"parrot", by simp, d, by rcases hd with rfl | rfl <;> simp, pre, w, post, htext, hw⟩
  have hm := (MatchString_addressPattern fold flags.nick conn.Nick message).2 hadd
  refine ⟨⟨_, Compile_addressPattern flags.nick conn.Nick, hm⟩, ?_⟩
  rw [privmsgHandler_eq fold flags url conn line channel message rest hargs, if_neg hchan,
    if_pos hm]
  rfl

/-- C10, witness: a bot configured and connected as `polly`, and the channel
line `hey PaRRoT, hi`. -/
theorem parrot_literal_always_replies_witness :
    (({ Nick := "bob", Args := ["#ops", "hey PaRRoT, hi"] } : Line).Args
        = "#ops" :: "hey PaRRoT, hi" :: [])
    ∧ "#ops" ≠ ({ connUp with Nick := "polly" } : Conn).Nick
    ∧ "hey PaRRoT, hi".data = "hey ".data ++ "PaRRoT".data ++ ',' :: " hi".data
    ∧ "PaRRoT".data.map foldASCII = "parrot".data.map foldASCII
    ∧ privmsgHandler foldASCII { defaultFlags with nick := "polly" } "http://bot:5555"
        { connUp with Nick := "polly" } { Nick := "bob", Args := ["#ops", "hey PaRRoT, hi"] }
        = some { ({ connUp with Nick := "polly" } : Conn) with
                 log := ({ connUp with Nick := "polly" } : Conn).log
                  ++ [Effect.Privmsg "#ops" (standardDisclaimer "http://bot:5555")] } :=
  ⟨rfl, by decide, by decide, by decide,
   (parrot_literal_always_replies foldASCII { defaultFlags with nick := "polly" }
      "http://bot:5555" { connUp with Nick := "polly" }
      { Nick := "bob", Args := ["#ops", "hey PaRRoT, hi"] } "#ops" "hey PaRRoT, hi" []
      "hey ".data "PaRRoT".data " hi".data ',' rfl (by decide) (by decide) (by decide)
      (Or.inr rfl)).2⟩

end Parrot
